import Mathlib

/-!
Verification development for the BrickGenius voxel layout engine.

This file gives a shallow embedding in Lean 4 of the core of the
repository: the brick data model (`src/types.ts`, `src/constants.ts`),
the greedy voxel packer `optimizeBricks`
(`src/src/utils/brickUtils.ts`, duplicated in `src/App.tsx`),
the history manager (`src/src/hooks/useHistory.ts`),
the application-level board operations of `src/App.tsx`
(`addBrick`, `getLiftableBricks`, `handleLiftBrick`, `handleDropGroup`,
`rotateLiftedGroup`, `removeBrick`, `clearBricks`, undo/redo),
and the pointer pipeline of `src/components/Scene.tsx`
(`handlePointerMove`, `handleClick`).

Modelling conventions:
* JavaScript numbers holding grid coordinates are modelled as `Int`
  (the engine only ever stores integer grid positions); pointer-plane
  coordinates, which are genuinely fractional, are modelled as `Rat`.
* Optional TypeScript fields (`sizeX?`, `rotation?`, `offsetX?`, ...)
  are modelled as `Option`; the JavaScript idiom `v || 1` (which maps
  `undefined` and `0` to `1`) is modelled by `orOne`.
* `uuidv4()` is modelled by a fresh-id counter threaded through the
  application state; the packer itself emits a placeholder id `0`
  (its callers re-assign fresh ids, see `assignIds`), since no claim
  depends on the actual uuid values.
* JavaScript `Map`/`Set` iterate in insertion order and deduplicate;
  this is modelled by `firstDedup` (keep the first occurrence).
* The packer keys its groups by the template-literal string
  `y + "," + color`.  Since the decimal rendering of a number never
  contains a comma, that string determines the pair
  `(decimal rendering of y, color)` and vice versa, so the grouping is
  modelled directly on the pair `(y, color)`; `parseInt` applied to the
  decimal rendering of the integer `y` returns `y`.  The *decoding*
  `key.split(',')[1]`, however, only recovers the part of the color up
  to its first comma; this is modelled faithfully by `decodedColor`.
-/

/-- `BrickType` from `src/types.ts`: a static catalog entry. -/

structure BrickType where
  label : String
  sizeX : Nat
  sizeZ : Nat
  specialType : Option String := none
deriving DecidableEq, Repr

/-- `BRICK_TYPES` from `src/constants.ts`. -/
def BRICK_TYPES : List BrickType :=
  [⟨"1x1", 1, 1, none⟩,
   ⟨"1x2", 1, 2, none⟩,
   ⟨"1x3", 1, 3, none⟩,
   ⟨"1x4", 1, 4, none⟩,
   ⟨"2x2", 2, 2, none⟩,
   ⟨"2x3", 2, 3, none⟩,
   ⟨"2x4", 2, 4, none⟩,
   ⟨"2x2 Axle", 2, 2, some "AXLE"⟩,
   ⟨"Wheel", 1, 1, some "TIRE"⟩]

/-- `MAX_BOARD_SIZE` from `src/constants.ts`. -/
def MAX_BOARD_SIZE : Int := 20

/-- `BrickData` from `src/types.ts`.  Ids are modelled as `Nat`
(uuids modelled by a fresh counter).  Optional fields are `Option`s. -/
structure BrickData where
  id : Nat
  x : Int
  y : Int
  z : Int
  color : String
  sizeX : Option Int := none
  sizeZ : Option Int := none
  rotation : Option Int := none
  specialType : Option String := none
  offsetX : Option Int := none
  offsetY : Option Int := none
  offsetZ : Option Int := none
deriving DecidableEq, Repr

/-- The raw voxel records consumed by `optimizeBricks`
(`{x: number, y: number, z: number, color: string}`). -/
structure RawVoxel where
  x : Int
  y : Int
  z : Int
  color : String
deriving DecidableEq, Repr

/-- The JavaScript idiom `v || 1` applied to an optional size field:
`undefined` and `0` are falsy and yield `1`. -/
def orOne : Option Int → Int
  | none => 1
  | some v => if v = 0 then 1 else v

/-- A horizontal grid cell `(x, z)`. -/
abbrev Cell := Int × Int

/-- JavaScript `String.prototype.split(',')` on the character list of a
string (single-character separator). -/
def splitOnCommaCh : List Char → List (List Char)
  | [] => [[]]
  | c :: rest =>
    if c = ',' then [] :: splitOnCommaCh rest
    else
      match splitOnCommaCh rest with
      | h :: t => (c :: h) :: t
      | [] => [[c]]

/-- The color recovered by `const [yStr, color] = key.split(',')` in
`optimizeBricks`, for a group key built as `y + "," + color`: the
decimal rendering of `y` contains no comma, so the recovered color is
the original color truncated at its first comma. -/
def decodedColor (c : String) : String :=
  String.mk ((splitOnCommaCh c.data).headD [])

/-- Keep the first occurrence of every element (JavaScript `Map`/`Set`
insertion-order deduplication semantics). -/
def firstDedupAux {α : Type} [DecidableEq α] (seen : List α) : List α → List α
  | [] => []
  | a :: l =>
    if a ∈ seen then firstDedupAux seen l
    else a :: firstDedupAux (a :: seen) l

/-- First-occurrence deduplication of a list. -/
def firstDedup {α : Type} [DecidableEq α] (l : List α) : List α :=
  firstDedupAux [] l

/-- The `(y, color)` group key of a raw voxel (the source builds the
string `y + "," + color`, see the module comment). -/
def voxKey (v : RawVoxel) : Int × String := (v.y, v.color)

/-- The keys of `bricksByLayerColor` in insertion order. -/
def groupKeys (raw : List RawVoxel) : List (Int × String) :=
  firstDedup (raw.map voxKey)

/-- The `(x, z)` coordinate set of one `(y, color)` group, in `Set`
insertion order. -/
def groupCells (raw : List RawVoxel) (k : Int × String) : List Cell :=
  firstDedup ((raw.filter (fun v => decide (voxKey v = k))).map (fun v => (v.x, v.z)))

/-- The coordinate comparator of `optimizeBricks`: ascending `z`, then
ascending `x`. -/
def zxLe (a b : Cell) : Prop := a.2 < b.2 ∨ (a.2 = b.2 ∧ a.1 ≤ b.1)

instance : DecidableRel zxLe := fun a b =>
  inferInstanceAs (Decidable (a.2 < b.2 ∨ (a.2 = b.2 ∧ a.1 ≤ b.1)))

instance : IsTotal Cell zxLe where
  total a b := by
    rcases lt_trichotomy a.2 b.2 with h | h | h
    · exact Or.inl (Or.inl h)
    · rcases le_total a.1 b.1 with h2 | h2
      · exact Or.inl (Or.inr ⟨h, h2⟩)
      · exact Or.inr (Or.inr ⟨h.symm, h2⟩)
    · exact Or.inr (Or.inl h)

instance : IsTrans Cell zxLe where
  trans a b c hab hbc := by
    rcases hab with h | ⟨h1, h2⟩ <;> rcases hbc with h' | ⟨h1', h2'⟩ <;>
      unfold zxLe <;> omega

instance : IsAntisymm Cell zxLe where
  antisymm a b hab hba := by
    rcases hab with h | ⟨h1, h2⟩ <;> rcases hba with h' | ⟨h1', h2'⟩ <;>
      [omega; omega; omega; exact Prod.ext (by omega) (by omega)]

/-- The coordinate list of a group, sorted as by the source's
`coords.sort` (a stable sort with the `(z, x)` comparator; on the
duplicate-free coordinate list the result is the unique sorted order). -/
def sortedCoords (cells : List Cell) : List Cell :=
  List.insertionSort zxLe cells

/-- The standard (non-special) catalog entries, stably sorted by
descending footprint area, as computed at the top of `optimizeBricks`. -/
def standardTypes : List BrickType :=
  List.insertionSort (fun a b => b.sizeX * b.sizeZ ≤ a.sizeX * a.sizeZ)
    (BRICK_TYPES.filter (fun t => t.specialType.isNone))

/-- The cells of a `w × d` rectangle whose minimum corner is `(x, z)`,
in the traversal order of the source's nested fit loops. -/
def rectCells (x z : Int) (w d : Nat) : List Cell :=
  (List.range w).flatMap
    (fun (i : Nat) => (List.range d).map (fun (j : Nat) => (x + (i : Int), z + (j : Int))))

/-- The fit test of `optimizeBricks`: every cell of the rectangle is in
the group's coordinate set and not yet processed. -/
def fitsAt (S P : List Cell) (x z : Int) (w d : Nat) : Bool :=
  (rectCells x z w d).all (fun p => decide (p ∈ S) && !decide (p ∈ P))

/-- The template search of `optimizeBricks`: first (by descending area)
template that fits in declared orientation, else — when not square — in
rotated orientation. -/
def tryFit (S P : List Cell) (x z : Int) : List BrickType → Option (BrickType × Bool)
  | [] => none
  | t :: rest =>
    if fitsAt S P x z t.sizeX t.sizeZ then some (t, false)
    else if (t.sizeX ≠ t.sizeZ) ∧ fitsAt S P x z t.sizeZ t.sizeX then some (t, true)
    else tryFit S P x z rest

/-- The brick object pushed by the fit branch of `optimizeBricks`
(`width`/`depth` computed from the chosen template and orientation; the
uuid is the placeholder `0`). -/
def fitBrick (c : Cell) (yv : Int) (cv : String) (t : BrickType) (rotated : Bool) : BrickData :=
  { id := 0, x := c.1, y := yv, z := c.2, color := cv,
    sizeX := some ((if rotated then t.sizeZ else t.sizeX : Nat) : Int),
    sizeZ := some ((if rotated then t.sizeX else t.sizeZ : Nat) : Int),
    rotation := some (if rotated then 90 else 0) }

/-- The `1×1` brick object pushed by the fallback branch of
`optimizeBricks` (no `rotation` field). -/
def fallbackBrick (c : Cell) (yv : Int) (cv : String) : BrickData :=
  { id := 0, x := c.1, y := yv, z := c.2, color := cv,
    sizeX := some 1, sizeZ := some 1 }

/-- One iteration of the `coords.forEach` loop of `optimizeBricks`:
state is `(processed, optimized)`. -/
def packStep (S : List Cell) (yv : Int) (cv : String)
    (st : List Cell × List BrickData) (c : Cell) : List Cell × List BrickData :=
  if decide (c ∈ st.1) then st
  else
    match tryFit S st.1 c.1 c.2 standardTypes with
    | some (t, rotated) =>
      (st.1 ++ rectCells c.1 c.2 (if rotated then t.sizeZ else t.sizeX)
         (if rotated then t.sizeX else t.sizeZ),
       st.2 ++ [fitBrick c yv cv t rotated])
    | none =>
      if decide (c ∈ st.1) then st
      else (st.1 ++ [c], st.2 ++ [fallbackBrick c yv cv])

/-- Processing of one `(y, color)` group of `optimizeBricks`. -/
def packGroup (yv : Int) (cv : String) (S : List Cell) (cs : List Cell) : List BrickData :=
  (cs.foldl (packStep S yv cv) ([], [])).2

/-- `optimizeBricks` from `src/src/utils/brickUtils.ts` (duplicated in
`src/App.tsx`): group voxels by `(y, color)`, and greedily tile each
group's coordinate set with the largest fitting standard template,
falling back to `1×1`.  Emitted ids are the placeholder `0` (uuids are
modelled at the call sites, see `assignIds`). -/
def optimizeBricks (raw : List RawVoxel) : List BrickData :=
  (groupKeys raw).flatMap (fun k =>
    packGroup k.1 (decodedColor k.2) (groupCells raw k) (sortedCoords (groupCells raw k)))

/-- The cells covered by an output brick: the `sizeX × sizeZ` rectangle
of cells starting at its `(x, z)` (spec vocabulary for the coverage
property; missing sizes default to 1). -/
def brickCells (b : BrickData) : List Cell :=
  rectCells b.x b.z (b.sizeX.getD 1).toNat (b.sizeZ.getD 1).toNat

/-- The observable content of an output brick named by the spec's
determinism property: position, color, footprint and rotation. -/
structure BrickObs where
  x : Int
  y : Int
  z : Int
  color : String
  sizeX : Option Int
  sizeZ : Option Int
  rotation : Option Int
deriving DecidableEq, Repr

/-- Project an output brick to its observable content (ids are uuids in
the source and deliberately ignored by the determinism property). -/
def brickObs (b : BrickData) : BrickObs :=
  ⟨b.x, b.y, b.z, b.color, b.sizeX, b.sizeZ, b.rotation⟩

/-- The packing-coverage property, stated from the spec's words: per
`(y, color)` group the cells covered by the output bricks are exactly
the input voxel cells, and no cell is covered by two output bricks of
the same group. -/
def PackCoverage (raw : List RawVoxel) : Prop :=
  (∀ (y : Int) (c : String) (p : Cell),
      (∃ v ∈ raw, v.y = y ∧ v.color = c ∧ (v.x, v.z) = p) ↔
      (∃ b ∈ optimizeBricks raw, b.y = y ∧ b.color = c ∧ p ∈ brickCells b))
  ∧ (optimizeBricks raw).Pairwise
      (fun b₁ b₂ => b₁.y = b₂.y → b₁.color = b₂.color →
        ∀ p, p ∈ brickCells b₁ → p ∉ brickCells b₂)

/-- Invariant of the per-group `forEach` loop: processed cells lie in the
group's coordinate set and are exactly the cells covered by the emitted
bricks, which are pairwise disjoint and carry the group's layer and
color. -/
def GroupInv (S : List Cell) (yv : Int) (cv : String)
    (st : List Cell × List BrickData) : Prop :=
  (∀ p ∈ st.1, p ∈ S)
  ∧ (∀ p, p ∈ st.1 ↔ ∃ b ∈ st.2, p ∈ brickCells b)
  ∧ st.2.Pairwise (fun b₁ b₂ => ∀ p, p ∈ brickCells b₁ → p ∉ brickCells b₂)
  ∧ (∀ b ∈ st.2, b.y = yv ∧ b.color = cv)

/-- The state of the `useHistory` hook (`src/src/hooks/useHistory.ts`):
live board, snapshot list, current index. -/
structure HistoryState where
  bricks : List BrickData
  history : List (List BrickData)
  currentHistoryIndex : Nat
deriving DecidableEq, Repr

namespace Hook

/-- `saveToHistory` from `useHistory.ts`: truncate the history to
`[0..index]`, append the new snapshot, increment the index, set the
live board. -/
def saveToHistory (s : HistoryState) (newBricks : List BrickData) : HistoryState :=
  { bricks := newBricks,
    history := s.history.take (s.currentHistoryIndex + 1) ++ [newBricks],
    currentHistoryIndex := s.currentHistoryIndex + 1 }

/-- `undo` from `useHistory.ts`.  The index is decremented whenever it
is positive; the board is set only when `history[newIndex]` is defined
(a JavaScript truthiness guard — arrays are always truthy, so in-bounds
entries always pass). -/
def undo (s : HistoryState) : HistoryState :=
  if 0 < s.currentHistoryIndex then
    match s.history[s.currentHistoryIndex - 1]? with
    | some b =>
      { s with currentHistoryIndex := s.currentHistoryIndex - 1, bricks := b }
    | none => { s with currentHistoryIndex := s.currentHistoryIndex - 1 }
  else s

/-- `redo` from `useHistory.ts` (note `history.length - 1` is JavaScript
number arithmetic; with a nonempty history the `Nat` subtraction used
here agrees with it, and the history is never empty). -/
def redo (s : HistoryState) : HistoryState :=
  if s.currentHistoryIndex < s.history.length - 1 then
    match s.history[s.currentHistoryIndex + 1]? with
    | some b =>
      { s with currentHistoryIndex := s.currentHistoryIndex + 1, bricks := b }
    | none => { s with currentHistoryIndex := s.currentHistoryIndex + 1 }
  else s

/-- A sequence of `saveToHistory` commits. -/
def commits (s : HistoryState) (snaps : List (List BrickData)) : HistoryState :=
  snaps.foldl saveToHistory s

/-- `undo` applied `n` times. -/
def undoN : Nat → HistoryState → HistoryState
  | 0, s => s
  | n + 1, s => undoN n (undo s)

/-- `redo` applied `n` times. -/
def redoN : Nat → HistoryState → HistoryState
  | 0, s => s
  | n + 1, s => redo (redoN n s)

end Hook

/-- The XZ rectangle-overlap test of `src/App.tsx` (used by
`getLiftableBricks.isOverlapping` and, with the same formula, by the
collision check of `handleDropGroup`): open-interval intersection of
`[x, x + sizeX) × [z, z + sizeZ)` footprints, sizes defaulted by
`|| 1`. -/
def overlapsXZb (b1 b2 : BrickData) : Bool :=
  decide (max b1.x b2.x < min (b1.x + orOne b1.sizeX) (b2.x + orOne b2.sizeX))
    && decide (max b1.z b2.z < min (b1.z + orOne b1.sizeZ) (b2.z + orOne b2.sizeZ))

/-- The bricks found by one iteration of the `getLiftableBricks` loop:
not yet collected, exactly one layer above `current`, and
XZ-overlapping it. -/
def supportedBy (all : List BrickData) (current : BrickData)
    (resultIds : List Nat) : List BrickData :=
  all.filter (fun b =>
    (!decide (b.id ∈ resultIds)) && (b.y == current.y + 1) && overlapsXZb current b)

/-- The `while (queue.length > 0)` loop of `getLiftableBricks`:
breadth-first traversal of the upward-support graph, collecting ids. -/
def bfsLift (all : List BrickData) : List BrickData → List Nat → List Nat
  | [], resultIds => resultIds
  | current :: rest, resultIds =>
    bfsLift all (rest ++ supportedBy all current resultIds)
      (resultIds ++ (supportedBy all current resultIds).map (fun b => b.id))
termination_by queue resultIds =>
  queue.length + 2 * (all.filter (fun b => !decide (b.id ∈ resultIds))).length
decreasing_by
  simp only [List.length_append, List.length_map, List.length_cons]
  have hsplit : ∀ (l : List BrickData) (p q : BrickData → Bool),
      (l.filter fun a => p a && q a).length + (l.filter fun a => p a && !q a).length
        = (l.filter p).length := by
    intro l p q
    induction l with
    | nil => rfl
    | cons hd tl ih =>
      cases hp : p hd <;> cases hq : q hd <;> simp [List.filter_cons, hp, hq] <;> omega
  have hB : (all.filter (fun b => !decide (b.id ∈ resultIds
        ++ (supportedBy all current resultIds).map (fun b => b.id))))
      = (all.filter fun b => (!decide (b.id ∈ resultIds))
          && !(decide (b.id ∈ (supportedBy all current resultIds).map (fun b => b.id)))) := by
    apply List.filter_congr
    intro a _
    simp [List.mem_append, not_or]
  have hA := hsplit all (fun b => !decide (b.id ∈ resultIds))
    (fun b => decide (b.id ∈ (supportedBy all current resultIds).map (fun b => b.id)))
  have hC : (supportedBy all current resultIds).length ≤
      (all.filter fun b => (!decide (b.id ∈ resultIds))
        && decide (b.id ∈ (supportedBy all current resultIds).map (fun b => b.id))).length := by
    have hsub1 : supportedBy all current resultIds = all.filter fun b =>
        ((!decide (b.id ∈ resultIds)) && (b.y == current.y + 1) && overlapsXZb current b)
          && decide (b.id ∈ (supportedBy all current resultIds).map (fun b => b.id)) := by
      conv_lhs => rw [supportedBy]
      apply Eq.symm
      apply List.filter_congr
      intro a ha
      cases hcond : ((!decide (a.id ∈ resultIds)) && (a.y == current.y + 1)
          && overlapsXZb current a)
      · simp
      · have hmem : a ∈ supportedBy all current resultIds := by
          rw [supportedBy, List.mem_filter]
          exact ⟨ha, hcond⟩
        have hmem2 : a.id ∈ (supportedBy all current resultIds).map (fun b => b.id) :=
          List.mem_map.mpr ⟨a, hmem, rfl⟩
        rw [decide_eq_true hmem2, Bool.and_true]
    calc (supportedBy all current resultIds).length
        = (all.filter fun b => ((!decide (b.id ∈ resultIds)) && (b.y == current.y + 1)
              && overlapsXZb current b)
            && decide (b.id ∈ (supportedBy all current resultIds).map
                  (fun b => b.id))).length := by
          conv_lhs => rw [hsub1]
      _ ≤ _ := by
        apply List.Sublist.length_le
        apply List.monotone_filter_right
        intro a ha
        simp only [Bool.and_eq_true] at ha ⊢
        exact ⟨ha.1.1.1, ha.2⟩
  rw [hB]
  omega

/-- `getLiftableBricks` from `src/App.tsx`: find the start brick by id
(empty result when absent), then BFS upward from it. -/
def getLiftableBricks (startBrickId : Nat) (allBricks : List BrickData) : List Nat :=
  match allBricks.find? (fun b => b.id == startBrickId) with
  | none => []
  | some startBrick => bfsLift allBricks [startBrick] [startBrickId]

/-- The Lifted Group state of `src/App.tsx`:
`{ bricks: BrickData[], anchorId: string }`. -/
structure LiftedGroup where
  bricks : List BrickData
  anchorId : Nat
deriving DecidableEq, Repr

/-- The relevant state of the `App` component of `src/App.tsx`:
live board, history, index, held group, and the uuid supply (modelled
as a counter). -/
structure AppState where
  bricks : List BrickData
  history : List (List BrickData)
  currentHistoryIndex : Nat
  liftedGroup : Option LiftedGroup
  nextId : Nat
deriving DecidableEq, Repr

/-- The initial `App` state: empty board, `history = [[]]`, index 0, no
group held. -/
def initialState : AppState := ⟨[], [[]], 0, none, 0⟩

namespace App

/-- `saveToHistory` from `src/App.tsx` (same logic as the hook's,
leaving `liftedGroup` and the id supply unchanged). -/
def saveToHistory (s : AppState) (newBricks : List BrickData) : AppState :=
  { s with
    bricks := newBricks,
    history := s.history.take (s.currentHistoryIndex + 1) ++ [newBricks],
    currentHistoryIndex := s.currentHistoryIndex + 1 }

/-- `undo` from `src/App.tsx`: as the hook's `undo`, and additionally
drops any held lifted group when the board is restored. -/
def undo (s : AppState) : AppState :=
  if 0 < s.currentHistoryIndex then
    match s.history[s.currentHistoryIndex - 1]? with
    | some b =>
      { s with currentHistoryIndex := s.currentHistoryIndex - 1, bricks := b,
               liftedGroup := none }
    | none => { s with currentHistoryIndex := s.currentHistoryIndex - 1 }
  else s

/-- `redo` from `src/App.tsx`. -/
def redo (s : AppState) : AppState :=
  if s.currentHistoryIndex < s.history.length - 1 then
    match s.history[s.currentHistoryIndex + 1]? with
    | some b =>
      { s with currentHistoryIndex := s.currentHistoryIndex + 1, bricks := b,
               liftedGroup := none }
    | none => { s with currentHistoryIndex := s.currentHistoryIndex + 1 }
  else s

/-- `addBrick` from `src/App.tsx`: stamp a new brick from the selected
template/color/rotation with a fresh id, append and commit.  No bounds
or collision check is performed here. -/
def addBrick (s : AppState) (x y z : Int) (color : String) (ty : BrickType)
    (rotated : Bool) : AppState :=
  { saveToHistory s (s.bricks ++
      [{ id := s.nextId, x := x, y := y, z := z, color := color,
         sizeX := some ((if rotated then ty.sizeZ else ty.sizeX : Nat) : Int),
         sizeZ := some ((if rotated then ty.sizeX else ty.sizeZ : Nat) : Int),
         rotation := some (if rotated then 90 else 0),
         specialType := ty.specialType }]) with
    nextId := s.nextId + 1 }

/-- The brick-with-offsets produced by `handleLiftBrick` for a group
member `b` relative to the anchor. -/
def withOffsets (anchor b : BrickData) : BrickData :=
  { b with offsetX := some (b.x - anchor.x), offsetY := some (b.y - anchor.y),
           offsetZ := some (b.z - anchor.z) }

/-- `handleLiftBrick` from `src/App.tsx`: collect the upward-support
group of the clicked brick, remove it from the board (through
`saveToHistory`), and hold it with per-member offsets. -/
def handleLiftBrick (s : AppState) (brickId : Nat) : AppState :=
  match (s.bricks.filter
      (fun b => (getLiftableBricks brickId s.bricks).contains b.id)).find?
      (fun b => b.id == brickId) with
  | none => s
  | some anchorBrick =>
    { saveToHistory s
        (s.bricks.filter (fun b => !(getLiftableBricks brickId s.bricks).contains b.id)) with
      liftedGroup := some
        ⟨(s.bricks.filter
            (fun b => (getLiftableBricks brickId s.bricks).contains b.id)).map
          (withOffsets anchorBrick), brickId⟩ }

/-- The absolute placement of a held group's members at a drop anchor
(`anchor + offset`, offsets cleared), as computed by
`handleDropGroup`. -/
def proposedBricks (g : LiftedGroup) (anchorX anchorY anchorZ : Int) : List BrickData :=
  g.bricks.map (fun b =>
    { b with x := anchorX + b.offsetX.getD 0, y := anchorY + b.offsetY.getD 0,
             z := anchorZ + b.offsetZ.getD 0,
             offsetX := none, offsetY := none, offsetZ := none })

/-- `handleDropGroup` from `src/App.tsx`: no-op without a held group;
otherwise place the members at `anchor + offset` unless some member
would share a layer and XZ-overlap an existing board brick, in which
case nothing at all changes. -/
def handleDropGroup (s : AppState) (anchorX anchorY anchorZ : Int) : AppState :=
  match s.liftedGroup with
  | none => s
  | some g =>
    if (proposedBricks g anchorX anchorY anchorZ).any (fun pb =>
        s.bricks.any (fun eb => overlapsXZb pb eb && pb.y == eb.y)) then s
    else
      { saveToHistory s (s.bricks ++ proposedBricks g anchorX anchorY anchorZ) with
        liftedGroup := none }

/-- `removeBrick` from `src/App.tsx`. -/
def removeBrick (s : AppState) (id : Nat) : AppState :=
  saveToHistory s (s.bricks.filter (fun b => !(b.id == id)))

/-- `clearBricks` from `src/App.tsx`. -/
def clearBricks (s : AppState) : AppState :=
  { saveToHistory s [] with liftedGroup := none }

/-- The member transform of `rotateLiftedGroup` in `src/App.tsx`:
offsets rotate 90° about the anchor's minimum corner
(`(offsetX, offsetZ) ↦ (offsetZ, -offsetX - sizeX)`), footprint
dimensions swap, rotation toggles.  An absent (`undefined`/NaN) offset
stays absent. -/
def rotateBrick (b : BrickData) : BrickData :=
  { b with offsetX := b.offsetZ,
           offsetZ := b.offsetX.map (fun v => -v - orOne b.sizeX),
           sizeX := b.sizeZ, sizeZ := b.sizeX,
           rotation := some (if b.rotation = some 0 then 90 else 0) }

/-- `rotateLiftedGroup` from `src/App.tsx`, restricted to the case of a
held group (without a group it only toggles the UI rotation flag, which
is modelled as a parameter of `addBrick`). -/
def rotateLiftedGroup (s : AppState) : AppState :=
  match s.liftedGroup with
  | none => s
  | some g => { s with liftedGroup := some ⟨g.bricks.map rotateBrick, g.anchorId⟩ }

/-- Fresh-id assignment for a bulk-generated brick list (models the
per-brick `uuidv4()` calls of `optimizeBricks` at the `App` level). -/
def assignIds (start : Nat) : List BrickData → List BrickData
  | [] => []
  | b :: rest => { b with id := start } :: assignIds (start + 1) rest

/-- The successful path of `handleGenerate` in `src/App.tsx`: drop any
held group, pack the raw voxels, sort the result by ascending `y`
(stable), and commit it as one snapshot. -/
def handleGenerate (s : AppState) (raw : List RawVoxel) : AppState :=
  { saveToHistory s
      (assignIds s.nextId (List.insertionSort (fun a b => a.y ≤ b.y) (optimizeBricks raw))) with
    liftedGroup := none,
    nextId := s.nextId +
      (assignIds s.nextId (List.insertionSort (fun a b => a.y ≤ b.y) (optimizeBricks raw))).length }

end App

/-- The reachable `App` states: every state produced from the initial
state by the operation surface (`addBrick` with a catalog template,
`removeBrick`, `clearBricks`, `handleLiftBrick`, `handleDropGroup`,
`undo`, `redo`, `rotateLiftedGroup`, successful `handleGenerate`). -/
inductive Reachable : AppState → Prop
  | init : Reachable initialState
  | add {s} (x y z : Int) (color : String) (ty : BrickType) (rotated : Bool) :
      Reachable s → ty ∈ BRICK_TYPES → Reachable (App.addBrick s x y z color ty rotated)
  | remove {s} (id : Nat) : Reachable s → Reachable (App.removeBrick s id)
  | clear {s} : Reachable s → Reachable (App.clearBricks s)
  | lift {s} (id : Nat) : Reachable s → Reachable (App.handleLiftBrick s id)
  | drop {s} (x y z : Int) : Reachable s → Reachable (App.handleDropGroup s x y z)
  | undo {s} : Reachable s → Reachable (App.undo s)
  | redo {s} : Reachable s → Reachable (App.redo s)
  | rotate {s} : Reachable s → Reachable (App.rotateLiftedGroup s)
  | generate {s} (raw : List RawVoxel) : Reachable s → Reachable (App.handleGenerate s raw)

/-- The upward-support reachability relation of the spec: the start
brick, closed under stepping to a brick of the board exactly one layer
up that XZ-overlaps an already-collected brick. -/
inductive UpReach (all : List BrickData) (start : BrickData) : BrickData → Prop
  | base : UpReach all start start
  | step {b c : BrickData} : UpReach all start b → c ∈ all →
      c.y = b.y + 1 → overlapsXZb b c = true → UpReach all start c

/-- A collected brick is fully expanded with respect to a result set:
all its upward neighbours are already collected. -/
def expanded (all : List BrickData) (b : BrickData) (resultIds : List Nat) : Prop :=
  ∀ c ∈ all, c.y = b.y + 1 → overlapsXZb b c = true → c.id ∈ resultIds

/-- `ToolMode` from `src/types.ts`. -/
inductive ToolMode
  | VIEW
  | BUILD
  | DELETE
  | MOVE
deriving DecidableEq, Repr

/-- `snapToGrid` from `src/components/Scene.tsx` (`Math.round`, which
rounds halves toward positive infinity), on exact rational pointer
coordinates. -/
def snapToGrid (v : Rat) : Int := Rat.floor (v + 1 / 2)

/-- `handlePointerMove` of `SceneContent` in `src/components/Scene.tsx`
for ground-plane hovering (with its default `existingY = 0`): no hover
target outside BUILD/MOVE mode, and none when the snapped coordinates
leave the board; otherwise hover at the snapped cell. -/
def handlePointerMove (toolMode : ToolMode) (px pz : Rat) : Option (Int × Int × Int) :=
  if toolMode ≠ ToolMode.BUILD ∧ toolMode ≠ ToolMode.MOVE then none
  else
    if snapToGrid px < -MAX_BOARD_SIZE / 2 ∨ snapToGrid px > MAX_BOARD_SIZE / 2
        ∨ snapToGrid pz < -MAX_BOARD_SIZE / 2 ∨ snapToGrid pz > MAX_BOARD_SIZE / 2 then
      none
    else some (snapToGrid px, 0, snapToGrid pz)

/-- `handleClick` of `SceneContent` for ground-plane clicks: in BUILD
mode add a brick at the hover position, in MOVE mode with a held group
drop there; with no hover position do nothing. -/
def handleClick (toolMode : ToolMode) (hoverPos : Option (Int × Int × Int))
    (s : AppState) (color : String) (ty : BrickType) (rotated : Bool) : AppState :=
  match toolMode, hoverPos with
  | ToolMode.BUILD, some (x, y, z) => App.addBrick s x y z color ty rotated
  | ToolMode.MOVE, some (x, y, z) =>
    if s.liftedGroup.isSome then App.handleDropGroup s x y z else s
  | _, _ => s

/-- `onBrickClick` of `SceneContent` in `src/components/Scene.tsx`: a
click on an existing brick `brick` at pointer point `(px, ·, pz)` with
clicked-face normal `face` (`none` when the event carries no face).
DELETE removes the clicked brick; MOVE without a held group lifts it;
BUILD with a face places a new brick next to the clicked one —
`(round(point.x), brick.y + 1, round(point.z))` on a top face,
`(round(point.x) + round(nx), brick.y + round(ny),
round(point.z) + round(nz))` on a side face — with **no bounds check**;
MOVE with a held group drops it at the same face-derived target. -/
def onBrickClick (toolMode : ToolMode) (s : AppState) (brick : BrickData)
    (px pz : Rat) (face : Option (Rat × Rat × Rat))
    (color : String) (ty : BrickType) (rotated : Bool) : AppState :=
  match toolMode with
  | ToolMode.DELETE => App.removeBrick s brick.id
  | ToolMode.VIEW => s
  | ToolMode.MOVE =>
    match s.liftedGroup with
    | none => App.handleLiftBrick s brick.id
    | some _ =>
      match face with
      | none => s
      | some (nx, ny, nz) =>
        if ny > 1 / 2 then
          App.handleDropGroup s (snapToGrid px) (brick.y + 1) (snapToGrid pz)
        else
          App.handleDropGroup s (snapToGrid px + snapToGrid nx)
            (brick.y + snapToGrid ny) (snapToGrid pz + snapToGrid nz)
  | ToolMode.BUILD =>
    match face with
    | none => s
    | some (nx, ny, nz) =>
      if ny > 1 / 2 then
        App.addBrick s (snapToGrid px) (brick.y + 1) (snapToGrid pz) color ty rotated
      else
        App.addBrick s (snapToGrid px + snapToGrid nx) (brick.y + snapToGrid ny)
          (snapToGrid pz + snapToGrid nz) color ty rotated

/-- Id hygiene of a brick list with respect to the fresh-id counter:
all ids already allocated, none duplicated. -/
def IdsOk (l : List BrickData) (n : Nat) : Prop :=
  (∀ b ∈ l, b.id < n) ∧ (l.map (fun b => b.id)).Nodup

/-- The inductive invariant of reachable `App` states: index in bounds,
live board synchronized with the history entry at the index, id hygiene
of every snapshot, and — while a group is held — id hygiene of its
members, their disjointness from the board, and the presence of the
anchor id among them. -/
def StInv (s : AppState) : Prop :=
  s.currentHistoryIndex < s.history.length
  ∧ s.history[s.currentHistoryIndex]? = some s.bricks
  ∧ (∀ snap ∈ s.history, IdsOk snap s.nextId)
  ∧ (∀ g, s.liftedGroup = some g →
      (∀ m ∈ g.bricks, m.id < s.nextId)
      ∧ (g.bricks.map (fun b => b.id)).Nodup
      ∧ (∀ m ∈ g.bricks, ∀ b ∈ s.bricks, m.id ≠ b.id)
      ∧ (∃ m ∈ g.bricks, m.id = g.anchorId))

theorem mem_firstDedupAux {α : Type} [DecidableEq α] (l : List α) (seen : List α) (a : α) :
    a ∈ firstDedupAux seen l ↔ a ∈ l ∧ a ∉ seen := by
  induction l generalizing seen with
  | nil => simp [firstDedupAux]
  | cons hd tl ih =>
    by_cases h : hd ∈ seen
    · rw [firstDedupAux, if_pos h, ih]
      constructor
      · rintro ⟨h1, h2⟩
        exact ⟨List.mem_cons_of_mem _ h1, h2⟩
      · rintro ⟨h1, h2⟩
        rcases List.mem_cons.mp h1 with rfl | h1
        · exact absurd h h2
        · exact ⟨h1, h2⟩
    · rw [firstDedupAux, if_neg h]
      rw [List.mem_cons, ih, List.mem_cons, List.mem_cons]
      constructor
      · rintro (rfl | ⟨h1, h2⟩)
        · exact ⟨Or.inl rfl, h⟩
        · exact ⟨Or.inr h1, fun hs => h2 (Or.inr hs)⟩
      · rintro ⟨rfl | h1, h2⟩
        · exact Or.inl rfl
        · by_cases he : a = hd
          · exact Or.inl he
          · exact Or.inr ⟨h1, fun hs => (by rcases hs with hs | hs; exact he hs; exact h2 hs)⟩

theorem mem_firstDedup {α : Type} [DecidableEq α] (l : List α) (a : α) :
    a ∈ firstDedup l ↔ a ∈ l := by
  rw [firstDedup, mem_firstDedupAux]
  simp

theorem nodup_firstDedupAux {α : Type} [DecidableEq α] (l : List α) (seen : List α) :
    (firstDedupAux seen l).Nodup := by
  induction l generalizing seen with
  | nil => exact List.nodup_nil
  | cons hd tl ih =>
    by_cases h : hd ∈ seen
    · rw [firstDedupAux, if_pos h]; exact ih seen
    · rw [firstDedupAux, if_neg h]
      refine List.nodup_cons.mpr ⟨fun hmem => ?_, ih (hd :: seen)⟩
      exact ((mem_firstDedupAux _ _ _).mp hmem).2 (List.mem_cons_self _ _)

theorem nodup_firstDedup {α : Type} [DecidableEq α] (l : List α) :
    (firstDedup l).Nodup := nodup_firstDedupAux l []

theorem mem_groupKeys (raw : List RawVoxel) (k : Int × String) :
    k ∈ groupKeys raw ↔ ∃ v ∈ raw, voxKey v = k := by
  rw [groupKeys, mem_firstDedup, List.mem_map]

theorem nodup_groupKeys (raw : List RawVoxel) : (groupKeys raw).Nodup :=
  nodup_firstDedup _

theorem mem_groupCells (raw : List RawVoxel) (k : Int × String) (p : Cell) :
    p ∈ groupCells raw k ↔ ∃ v ∈ raw, voxKey v = k ∧ (v.x, v.z) = p := by
  rw [groupCells, mem_firstDedup, List.mem_map]
  constructor
  · rintro ⟨v, hv, hp⟩
    rw [List.mem_filter] at hv
    exact ⟨v, hv.1, of_decide_eq_true hv.2, hp⟩
  · rintro ⟨v, hv, hk, hp⟩
    exact ⟨v, List.mem_filter.mpr ⟨hv, decide_eq_true hk⟩, hp⟩

theorem mem_sortedCoords (cells : List Cell) (p : Cell) :
    p ∈ sortedCoords cells ↔ p ∈ cells :=
  (List.perm_insertionSort zxLe cells).mem_iff

theorem mem_rectCells (x z : Int) (w d : Nat) (p : Cell) :
    p ∈ rectCells x z w d ↔
      ∃ i : Nat, i < w ∧ ∃ j : Nat, j < d ∧ (x + (i : Int), z + (j : Int)) = p := by
  unfold rectCells
  rw [List.mem_flatMap]
  constructor
  · rintro ⟨i, hi, hmem⟩
    rw [List.mem_range] at hi
    rw [List.mem_map] at hmem
    obtain ⟨j, hj, hp⟩ := hmem
    rw [List.mem_range] at hj
    exact ⟨i, hi, j, hj, hp⟩
  · rintro ⟨i, hi, j, hj, hp⟩
    exact ⟨i, List.mem_range.mpr hi, List.mem_map.mpr ⟨j, List.mem_range.mpr hj, hp⟩⟩

theorem corner_mem_rectCells (x z : Int) (w d : Nat) (hw : 0 < w) (hd : 0 < d) :
    (x, z) ∈ rectCells x z w d := by
  rw [mem_rectCells]
  exact ⟨0, hw, 0, hd, by simp⟩

theorem fitsAt_spec (S P : List Cell) (x z : Int) (w d : Nat) :
    fitsAt S P x z w d = true ↔ ∀ p ∈ rectCells x z w d, p ∈ S ∧ p ∉ P := by
  rw [fitsAt, List.all_eq_true]
  constructor
  · intro h p hp
    have := h p hp
    simp only [Bool.and_eq_true, decide_eq_true_eq, Bool.not_eq_true',
      decide_eq_false_iff_not] at this
    exact this
  · intro h p hp
    simp only [Bool.and_eq_true, decide_eq_true_eq, Bool.not_eq_true',
      decide_eq_false_iff_not]
    exact h p hp

theorem tryFit_some (S P : List Cell) (x z : Int) (ts : List BrickType)
    (t : BrickType) (rot : Bool) (h : tryFit S P x z ts = some (t, rot)) :
    t ∈ ts ∧
      fitsAt S P x z (if rot then t.sizeZ else t.sizeX)
        (if rot then t.sizeX else t.sizeZ) = true := by
  induction ts with
  | nil => exact absurd h (by simp [tryFit])
  | cons hd tl ih =>
    rw [tryFit] at h
    split at h
    · rename_i hfit
      have h' := Option.some.inj h
      have h1 : hd = t := congrArg Prod.fst h'
      have h2 : (false : Bool) = rot := congrArg Prod.snd h'
      subst h1; subst h2
      exact ⟨List.mem_cons_self _ _, by simpa using hfit⟩
    · split at h
      · rename_i hcond
        have h' := Option.some.inj h
        have h1 : hd = t := congrArg Prod.fst h'
        have h2 : (true : Bool) = rot := congrArg Prod.snd h'
        subst h1; subst h2
        exact ⟨List.mem_cons_self _ _, by simpa using hcond.2⟩
      · obtain ⟨h1, h2⟩ := ih h
        exact ⟨List.mem_cons_of_mem _ h1, h2⟩

theorem standardTypes_pos : ∀ t ∈ standardTypes, 0 < t.sizeX ∧ 0 < t.sizeZ := by
  decide

theorem mem_rectCells_one (x z : Int) (p : Cell) :
    p ∈ rectCells x z 1 1 ↔ p = (x, z) := by
  rw [mem_rectCells]
  constructor
  · rintro ⟨i, hi, j, hj, h⟩
    have hi0 : i = 0 := by omega
    have hj0 : j = 0 := by omega
    subst hi0; subst hj0
    simp at h
    exact h.symm
  · rintro rfl
    exact ⟨0, Nat.one_pos, 0, Nat.one_pos, by simp⟩

/-- The cells of a brick emitted by the fit branch of `packStep`. -/
theorem brickCells_fitBrick (c : Cell) (yv : Int) (cv : String) (t : BrickType)
    (rotated : Bool) :
    brickCells (fitBrick c yv cv t rotated) =
      rectCells c.1 c.2 (if rotated then t.sizeZ else t.sizeX)
        (if rotated then t.sizeX else t.sizeZ) := by
  cases rotated <;> simp [brickCells, fitBrick]

/-- The cells of a brick emitted by the fallback branch of `packStep`. -/
theorem brickCells_fallbackBrick (c : Cell) (yv : Int) (cv : String) (p : Cell) :
    p ∈ brickCells (fallbackBrick c yv cv) ↔ p = c := by
  have h1 : brickCells (fallbackBrick c yv cv) = rectCells c.1 c.2 1 1 := by
    simp [brickCells, fallbackBrick]
  rw [h1, mem_rectCells_one]

theorem packStep_inv (S : List Cell) (yv : Int) (cv : String)
    (st : List Cell × List BrickData) (c : Cell) (hc : c ∈ S)
    (hinv : GroupInv S yv cv st) :
    GroupInv S yv cv (packStep S yv cv st c)
    ∧ (∀ p ∈ st.1, p ∈ (packStep S yv cv st c).1)
    ∧ c ∈ (packStep S yv cv st c).1 := by
  obtain ⟨hPS, hcov, hdisj, hyc⟩ := hinv
  unfold packStep
  by_cases hcp : c ∈ st.1
  · rw [if_pos (decide_eq_true hcp)]
    exact ⟨⟨hPS, hcov, hdisj, hyc⟩, fun p hp => hp, hcp⟩
  · rw [if_neg (by simpa using hcp)]
    cases htf : tryFit S st.1 c.1 c.2 standardTypes with
    | none =>
      rw [if_neg (by simpa using hcp)]
      have hfbcells := brickCells_fallbackBrick c yv cv
      refine ⟨⟨?_, ?_, ?_, ?_⟩, ?_, ?_⟩
      · intro p hp
        rcases List.mem_append.mp hp with hp | hp
        · exact hPS p hp
        · rw [List.mem_singleton] at hp; subst hp; exact hc
      · intro p
        rw [List.mem_append, List.mem_singleton, hcov]
        constructor
        · rintro (⟨b, hb, hpb⟩ | rfl)
          · exact ⟨b, List.mem_append_left _ hb, hpb⟩
          · exact ⟨_, List.mem_append_right _ (List.mem_singleton_self _),
              (hfbcells p).mpr rfl⟩
        · rintro ⟨b, hb, hpb⟩
          rcases List.mem_append.mp hb with hb | hb
          · exact Or.inl ⟨b, hb, hpb⟩
          · rw [List.mem_singleton] at hb; subst hb
            exact Or.inr ((hfbcells p).mp hpb)
      · rw [List.pairwise_append]
        refine ⟨hdisj, List.pairwise_singleton _ _, ?_⟩
        intro b hb b' hb' p hpb
        rw [List.mem_singleton] at hb'; subst hb'
        intro hpb'
        have hpc : p = c := (hfbcells p).mp hpb'
        subst hpc
        exact hcp ((hcov p).mpr ⟨b, hb, hpb⟩)
      · intro b hb
        rcases List.mem_append.mp hb with hb | hb
        · exact hyc b hb
        · rw [List.mem_singleton] at hb; subst hb; exact ⟨rfl, rfl⟩
      · intro p hp; exact List.mem_append_left _ hp
      · exact List.mem_append_right _ (List.mem_singleton_self _)
    | some tr =>
      obtain ⟨t, rot⟩ := tr
      obtain ⟨htmem, hfits⟩ := tryFit_some S st.1 c.1 c.2 standardTypes t rot htf
      have hrect := (fitsAt_spec _ _ _ _ _ _).mp hfits
      have hpos : 0 < (if rot then t.sizeZ else t.sizeX)
          ∧ 0 < (if rot then t.sizeX else t.sizeZ) := by
        obtain ⟨h1, h2⟩ := standardTypes_pos t htmem
        cases rot <;> simp [h1, h2]
      have hnbcells := brickCells_fitBrick c yv cv t rot
      refine ⟨⟨?_, ?_, ?_, ?_⟩, ?_, ?_⟩
      · intro p hp
        rcases List.mem_append.mp hp with hp | hp
        · exact hPS p hp
        · exact (hrect p hp).1
      · intro p
        rw [List.mem_append, hcov]
        constructor
        · rintro (⟨b, hb, hpb⟩ | hpR)
          · exact ⟨b, List.mem_append_left _ hb, hpb⟩
          · refine ⟨_, List.mem_append_right _ (List.mem_singleton_self _), ?_⟩
            rw [hnbcells]; exact hpR
        · rintro ⟨b, hb, hpb⟩
          rcases List.mem_append.mp hb with hb | hb
          · exact Or.inl ⟨b, hb, hpb⟩
          · rw [List.mem_singleton] at hb; subst hb
            rw [hnbcells] at hpb; exact Or.inr hpb
      · rw [List.pairwise_append]
        refine ⟨hdisj, List.pairwise_singleton _ _, ?_⟩
        intro b hb b' hb' p hpb
        rw [List.mem_singleton] at hb'; subst hb'
        rw [hnbcells]
        intro hpb'
        exact (hrect p hpb').2 ((hcov p).mpr ⟨b, hb, hpb⟩)
      · intro b hb
        rcases List.mem_append.mp hb with hb | hb
        · exact hyc b hb
        · rw [List.mem_singleton] at hb; subst hb; exact ⟨rfl, rfl⟩
      · intro p hp; exact List.mem_append_left _ hp
      · refine List.mem_append_right _ ?_
        have := corner_mem_rectCells c.1 c.2 _ _ hpos.1 hpos.2
        simpa using this

theorem packFold_inv (S : List Cell) (yv : Int) (cv : String) (cs : List Cell)
    (hcs : ∀ c ∈ cs, c ∈ S) (st : List Cell × List BrickData)
    (hinv : GroupInv S yv cv st) :
    GroupInv S yv cv (cs.foldl (packStep S yv cv) st)
    ∧ (∀ p ∈ st.1, p ∈ (cs.foldl (packStep S yv cv) st).1)
    ∧ (∀ c ∈ cs, c ∈ (cs.foldl (packStep S yv cv) st).1) := by
  induction cs generalizing st with
  | nil => exact ⟨hinv, fun p hp => hp, by simp⟩
  | cons hd tl ih =>
    rw [List.foldl_cons]
    have hstep := packStep_inv S yv cv st hd (hcs hd (List.mem_cons_self _ _)) hinv
    have hrest := ih (fun c hcc => hcs c (List.mem_cons_of_mem _ hcc)) _ hstep.1
    refine ⟨hrest.1, ?_, ?_⟩
    · intro p hp
      exact hrest.2.1 p (hstep.2.1 p hp)
    · intro c hcc
      rcases List.mem_cons.mp hcc with rfl | hcc
      · exact hrest.2.1 c hstep.2.2
      · exact hrest.2.2 c hcc

theorem packGroup_spec (yv : Int) (cv : String) (S cs : List Cell)
    (hcs : ∀ p : Cell, p ∈ cs ↔ p ∈ S) :
    (∀ p : Cell, (∃ b ∈ packGroup yv cv S cs, p ∈ brickCells b) ↔ p ∈ S)
    ∧ (packGroup yv cv S cs).Pairwise
        (fun b₁ b₂ => ∀ p, p ∈ brickCells b₁ → p ∉ brickCells b₂)
    ∧ (∀ b ∈ packGroup yv cv S cs, b.y = yv ∧ b.color = cv) := by
  have hinit : GroupInv S yv cv ([], []) := by
    refine ⟨by simp, by simp, List.Pairwise.nil, by simp⟩
  have h := packFold_inv S yv cv cs (fun c hcc => (hcs c).mp hcc) ([], []) hinit
  obtain ⟨⟨hPS, hcov, hdisj, hyc⟩, _, hall⟩ := h
  refine ⟨?_, hdisj, hyc⟩
  intro p
  constructor
  · rintro ⟨b, hb, hpb⟩
    exact hPS p ((hcov p).mpr ⟨b, hb, hpb⟩)
  · intro hpS
    exact (hcov p).mp (hall p ((hcs p).mpr hpS))

theorem decodedColor_of_keys (raw : List RawVoxel)
    (h : ∀ v ∈ raw, decodedColor v.color = v.color) :
    ∀ k ∈ groupKeys raw, decodedColor k.2 = k.2 := by
  intro k hk
  obtain ⟨v, hv, hvk⟩ := (mem_groupKeys raw k).mp hk
  rw [← hvk]
  exact h v hv

/-- C1 (amended): provided no voxel color contains a comma (formally:
every color survives the `key.split(',')` round trip), the bricks
returned by `optimizeBricks` cover, per `(y, color)` group, exactly the
input voxel cells, with no cell covered twice. -/
theorem optimizeBricks_coverage (raw : List RawVoxel)
    (h : ∀ v ∈ raw, decodedColor v.color = v.color) : PackCoverage raw := by
  have hdec := decodedColor_of_keys raw h
  constructor
  · intro y cstr p
    constructor
    · rintro ⟨v, hv, hy, hcolor, hp⟩
      have hkey : voxKey v = (y, cstr) := by rw [voxKey, hy, hcolor]
      have hk : ((y, cstr) : Int × String) ∈ groupKeys raw :=
        (mem_groupKeys raw _).mpr ⟨v, hv, hkey⟩
      have hpS : p ∈ groupCells raw (y, cstr) :=
        (mem_groupCells raw _ p).mpr ⟨v, hv, hkey, hp⟩
      have spec := packGroup_spec (y, cstr).1 (decodedColor (y, cstr).2)
        (groupCells raw (y, cstr)) (sortedCoords (groupCells raw (y, cstr)))
        (mem_sortedCoords _)
      obtain ⟨b, hb, hpb⟩ := (spec.1 p).mpr hpS
      refine ⟨b, List.mem_flatMap.mpr ⟨(y, cstr), hk, hb⟩, (spec.2.2 b hb).1, ?_, hpb⟩
      rw [(spec.2.2 b hb).2]
      exact hdec _ hk
    · rintro ⟨b, hb, hby, hbc, hpb⟩
      obtain ⟨k, hk, hbk⟩ := List.mem_flatMap.mp hb
      have spec := packGroup_spec k.1 (decodedColor k.2)
        (groupCells raw k) (sortedCoords (groupCells raw k)) (mem_sortedCoords _)
      have hprops := spec.2.2 b hbk
      have hk1 : k.1 = y := hprops.1.symm.trans hby
      have hk2 : k.2 = cstr := ((hprops.2.trans (hdec k hk)).symm.trans hbc).symm.symm
      have hkp : k = (y, cstr) := Prod.ext hk1 hk2
      subst hkp
      have hpS : p ∈ groupCells raw (y, cstr) := (spec.1 p).mp ⟨b, hbk, hpb⟩
      obtain ⟨v, hv, hvk, hvp⟩ := (mem_groupCells raw _ p).mp hpS
      exact ⟨v, hv, congrArg Prod.fst hvk, congrArg Prod.snd hvk, hvp⟩
  · rw [optimizeBricks, List.flatMap_def]
    refine List.pairwise_flatten.mpr ⟨?_, ?_⟩
    · intro l hl
      rw [List.mem_map] at hl
      obtain ⟨k, hk, rfl⟩ := hl
      have spec := packGroup_spec k.1 (decodedColor k.2)
        (groupCells raw k) (sortedCoords (groupCells raw k)) (mem_sortedCoords _)
      exact spec.2.1.imp (fun hd _ _ p hp => hd p hp)
    · rw [List.pairwise_map]
      have hnd : (groupKeys raw).Pairwise (fun k k' => k ≠ k') := nodup_groupKeys raw
      refine List.Pairwise.imp_of_mem ?_ hnd
      intro k k' hkmem hkmem' hne x hx y' hy'
      intro hyy hcc
      exfalso
      have spec := packGroup_spec k.1 (decodedColor k.2)
        (groupCells raw k) (sortedCoords (groupCells raw k)) (mem_sortedCoords _)
      have spec' := packGroup_spec k'.1 (decodedColor k'.2)
        (groupCells raw k') (sortedCoords (groupCells raw k')) (mem_sortedCoords _)
      have hx1 := spec.2.2 x hx
      have hy1 := spec'.2.2 y' hy'
      have h1 : k.1 = k'.1 := hx1.1.symm.trans (hyy.trans hy1.1)
      have h2 : k.2 = k'.2 := by
        have := (hx1.2.trans (hdec k hkmem)).symm.trans
          (hcc.trans (hy1.2.trans (hdec k' hkmem')))
        exact this
      exact hne (Prod.ext h1 h2)

/-- C1 (counterexample): for the single voxel `(0,0,0)` with the color
string `"a,b"`, the packer's `key.split(',')` decoding truncates the
color to `"a"`, so the `(0, "a,b")` group's cell `(0,0)` is covered by
no output brick of that color: `PackCoverage` fails. -/
theorem optimizeBricks_comma_color_counterexample :
    ¬ PackCoverage [⟨0, 0, 0, "a,b"⟩] := by
  intro hPC
  obtain ⟨hiff, _⟩ := hPC
  obtain ⟨b, hb, _, hbc, _⟩ := (hiff 0 "a,b" (0, 0)).mp
    ⟨⟨0, 0, 0, "a,b"⟩, List.mem_singleton_self _, rfl, rfl, rfl⟩
  have hout : ∀ b' ∈ optimizeBricks [⟨0, 0, 0, "a,b"⟩], b'.color = "a" := by decide
  have := hout b hb
  rw [hbc] at this
  exact absurd this (by decide)

/-- C1 (witness): a concrete comma-free input on which the amended
coverage theorem applies. -/
theorem optimizeBricks_coverage_witness :
    (∀ v ∈ [RawVoxel.mk 0 0 0 "#F00", RawVoxel.mk 1 0 0 "#F00"],
        decodedColor v.color = v.color)
    ∧ PackCoverage [RawVoxel.mk 0 0 0 "#F00", RawVoxel.mk 1 0 0 "#F00"] :=
  ⟨by decide, optimizeBricks_coverage _ (by decide)⟩

/-- C10: on the voxels `{(0,0,0,"#F00"), (1,0,0,"#F00")}` with the
shipped catalog, `optimizeBricks` emits exactly one brick at
`(0,0,0)` of color `"#F00"` with footprint `sizeX = 2, sizeZ = 1`
(the `1x2` template in rotated orientation, `rotation = 90`), covering
both cells — not two `1×1` bricks. -/
theorem pack_two_cells_single_brick :
    (optimizeBricks [⟨0, 0, 0, "#F00"⟩, ⟨1, 0, 0, "#F00"⟩]).map brickObs =
      [⟨0, 0, 0, "#F00", some 2, some 1, some 90⟩] := by decide

theorem firstDedup_perm {α : Type} [DecidableEq α] (l1 l2 : List α) (h : l1.Perm l2) :
    (firstDedup l1).Perm (firstDedup l2) := by
  apply List.Subperm.antisymm
  · refine List.Nodup.subperm (nodup_firstDedup l1) ?_
    intro a ha
    rw [mem_firstDedup] at ha ⊢
    exact h.mem_iff.mp ha
  · refine List.Nodup.subperm (nodup_firstDedup l2) ?_
    intro a ha
    rw [mem_firstDedup] at ha ⊢
    exact h.mem_iff.mpr ha

theorem groupCells_perm (l1 l2 : List RawVoxel) (h : l1.Perm l2) (k : Int × String) :
    (groupCells l1 k).Perm (groupCells l2 k) :=
  firstDedup_perm _ _ ((h.filter _).map _)

theorem sortedCoords_eq_of_perm (c1 c2 : List Cell) (h : c1.Perm c2) :
    sortedCoords c1 = sortedCoords c2 :=
  List.eq_of_perm_of_sorted
    (((List.perm_insertionSort zxLe c1).trans h).trans
      (List.perm_insertionSort zxLe c2).symm)
    (List.sorted_insertionSort zxLe c1) (List.sorted_insertionSort zxLe c2)

theorem fitsAt_perm {S1 S2 : List Cell} (h : S1.Perm S2) (P : List Cell)
    (x z : Int) (w d : Nat) : fitsAt S1 P x z w d = fitsAt S2 P x z w d := by
  unfold fitsAt
  congr 1
  funext p
  rw [decide_eq_decide.mpr h.mem_iff]

theorem tryFit_perm {S1 S2 : List Cell} (h : S1.Perm S2) (P : List Cell)
    (x z : Int) (ts : List BrickType) : tryFit S1 P x z ts = tryFit S2 P x z ts := by
  induction ts with
  | nil => rfl
  | cons t rest ih =>
    rw [tryFit, tryFit]
    simp only [fitsAt_perm h, ih]

theorem packStep_perm {S1 S2 : List Cell} (h : S1.Perm S2) (yv : Int) (cv : String)
    (st : List Cell × List BrickData) (c : Cell) :
    packStep S1 yv cv st c = packStep S2 yv cv st c := by
  unfold packStep
  rw [tryFit_perm h]

theorem packGroup_perm {S1 S2 : List Cell} (h : S1.Perm S2) (yv : Int) (cv : String)
    (cs : List Cell) : packGroup yv cv S1 cs = packGroup yv cv S2 cs := by
  suffices h' : ∀ st, cs.foldl (packStep S1 yv cv) st = cs.foldl (packStep S2 yv cv) st by
    rw [packGroup, packGroup, h']
  induction cs with
  | nil => intro st; rfl
  | cons hd tl ih =>
    intro st
    rw [List.foldl_cons, List.foldl_cons, packStep_perm h, ih]

theorem optimizeBricks_perm (l1 l2 : List RawVoxel) (h : l1.Perm l2) :
    (optimizeBricks l1).Perm (optimizeBricks l2) := by
  have hkeys : (groupKeys l1).Perm (groupKeys l2) := firstDedup_perm _ _ (h.map voxKey)
  have hfun : ∀ k : Int × String,
      packGroup k.1 (decodedColor k.2) (groupCells l1 k) (sortedCoords (groupCells l1 k))
      = packGroup k.1 (decodedColor k.2) (groupCells l2 k)
          (sortedCoords (groupCells l2 k)) := by
    intro k
    have hc := groupCells_perm l1 l2 h k
    rw [sortedCoords_eq_of_perm _ _ hc, packGroup_perm hc]
  rw [optimizeBricks, optimizeBricks]
  have e1 : (groupKeys l1).flatMap (fun k =>
      packGroup k.1 (decodedColor k.2) (groupCells l1 k) (sortedCoords (groupCells l1 k)))
      = (groupKeys l1).flatMap (fun k =>
      packGroup k.1 (decodedColor k.2) (groupCells l2 k) (sortedCoords (groupCells l2 k))) :=
    List.flatMap_congr (fun k _ => hfun k)
  rw [e1, List.flatMap_def, List.flatMap_def]
  exact (hkeys.map _).flatten

/-- C7 (amended): `optimizeBricks` is deterministic in its input as a
set, up to output list order: permuting the input voxel list permutes
the output brick list (same bricks with the same positions, sizes,
colors and rotations).  The concrete list order is not preserved in
general, because groups are emitted in first-occurrence order of their
`(y, color)` keys. -/
theorem optimizeBricks_deterministic_up_to_perm (l1 l2 : List RawVoxel)
    (h : l1.Perm l2) :
    ((optimizeBricks l1).map brickObs).Perm ((optimizeBricks l2).map brickObs) :=
  (optimizeBricks_perm l1 l2 h).map brickObs

/-- C7 (witness): the amended determinism theorem applied to a concrete
transposed pair of voxel lists. -/
theorem optimizeBricks_deterministic_witness :
    ([⟨0, 0, 0, "A"⟩, ⟨1, 0, 0, "A"⟩] : List RawVoxel).Perm
      [⟨1, 0, 0, "A"⟩, ⟨0, 0, 0, "A"⟩]
    ∧ ((optimizeBricks [⟨0, 0, 0, "A"⟩, ⟨1, 0, 0, "A"⟩]).map brickObs).Perm
        ((optimizeBricks [⟨1, 0, 0, "A"⟩, ⟨0, 0, 0, "A"⟩]).map brickObs) :=
  ⟨by decide, optimizeBricks_deterministic_up_to_perm _ _ (by decide)⟩

/-- C7 (counterexample): the two orderings of the same two-voxel set
`{(0,0,0,"A"), (0,1,0,"B")}` produce output brick lists in different
list orders (the `(0,"A")` and `(1,"B")` groups swap), refuting the
claim that identical input sets give identical output lists. -/
theorem optimizeBricks_order_counterexample :
    ([⟨0, 0, 0, "A"⟩, ⟨0, 1, 0, "B"⟩] : List RawVoxel).Perm
      [⟨0, 1, 0, "B"⟩, ⟨0, 0, 0, "A"⟩]
    ∧ (optimizeBricks [⟨0, 0, 0, "A"⟩, ⟨0, 1, 0, "B"⟩]).map brickObs ≠
      (optimizeBricks [⟨0, 1, 0, "B"⟩, ⟨0, 0, 0, "A"⟩]).map brickObs := by
  exact ⟨by decide, by decide⟩

theorem saveToHistory_fields (s : HistoryState) (nb : List BrickData)
    (hInv : s.currentHistoryIndex < s.history.length) :
    (Hook.saveToHistory s nb).currentHistoryIndex = s.currentHistoryIndex + 1
    ∧ (Hook.saveToHistory s nb).history.length = s.currentHistoryIndex + 2
    ∧ (Hook.saveToHistory s nb).history[s.currentHistoryIndex + 1]? = some nb
    ∧ (Hook.saveToHistory s nb).bricks = nb := by
  have hlen : (s.history.take (s.currentHistoryIndex + 1)).length
      = s.currentHistoryIndex + 1 := by
    rw [List.length_take]
    omega
  refine ⟨rfl, ?_, ?_, rfl⟩
  · show (s.history.take (s.currentHistoryIndex + 1) ++ [nb]).length = _
    rw [List.length_append, hlen]
    rfl
  · show (s.history.take (s.currentHistoryIndex + 1) ++ [nb])[s.currentHistoryIndex + 1]? = some nb
    rw [List.getElem?_append]
    simp only [hlen]
    rw [if_neg (by omega)]
    simp

theorem commits_facts (snaps : List (List BrickData)) (s : HistoryState)
    (hInv : s.currentHistoryIndex < s.history.length) :
    (Hook.commits s snaps).currentHistoryIndex
        = s.currentHistoryIndex + snaps.length
    ∧ (Hook.commits s snaps).currentHistoryIndex
        < (Hook.commits s snaps).history.length
    ∧ (snaps = [] → Hook.commits s snaps = s)
    ∧ (snaps ≠ [] →
        (Hook.commits s snaps).history[(Hook.commits s snaps).currentHistoryIndex]?
          = some (Hook.commits s snaps).bricks) := by
  induction snaps generalizing s with
  | nil => exact ⟨by simp [Hook.commits], hInv, fun _ => rfl, fun h => absurd rfl h⟩
  | cons a rest ih =>
    have hsf := saveToHistory_fields s a hInv
    have hInv' : (Hook.saveToHistory s a).currentHistoryIndex
        < (Hook.saveToHistory s a).history.length := by omega
    have hstep : Hook.commits s (a :: rest) = Hook.commits (Hook.saveToHistory s a) rest :=
      rfl
    have := ih (Hook.saveToHistory s a) hInv'
    refine ⟨?_, ?_, ?_, ?_⟩
    · rw [hstep, this.1, hsf.1]
      simp [Nat.add_assoc, Nat.add_comm 1 rest.length]
    · rw [hstep]; exact this.2.1
    · intro h; exact absurd h (by simp)
    · intro _
      rw [hstep]
      rcases Decidable.em (rest = []) with hr | hr
      · subst hr
        show (Hook.saveToHistory s a).history[(Hook.saveToHistory s a).currentHistoryIndex]?
          = some (Hook.saveToHistory s a).bricks
        rw [hsf.1, hsf.2.2.1, hsf.2.2.2]
      · exact this.2.2.2 hr

theorem redoN_undoN_cancel (N : Nat) :
    ∀ t : HistoryState, N ≤ t.currentHistoryIndex →
      t.currentHistoryIndex < t.history.length →
      t.history[t.currentHistoryIndex]? = some t.bricks →
      Hook.redoN N (Hook.undoN N t) = t := by
  induction N with
  | zero => intro t _ _ _; rfl
  | succ n ih =>
    rintro ⟨tb, th, ti⟩ hN hlen hsync
    simp only at hN hlen hsync
    have h0 : 0 < ti := by omega
    have hin : ti - 1 < th.length := by omega
    have hbv : th[ti - 1]? = some th[ti - 1] := List.getElem?_eq_getElem hin
    have hundo : Hook.undo ⟨tb, th, ti⟩ = ⟨th[ti - 1], th, ti - 1⟩ := by
      unfold Hook.undo
      rw [if_pos h0, hbv]
    have hih : Hook.redoN n (Hook.undoN n ⟨th[ti - 1], th, ti - 1⟩)
        = ⟨th[ti - 1], th, ti - 1⟩ := by
      apply ih
      · show n ≤ ti - 1
        omega
      · show ti - 1 < th.length
        exact hin
      · show th[ti - 1]? = some th[ti - 1]
        exact hbv
    show Hook.redo (Hook.redoN n (Hook.undoN n (Hook.undo ⟨tb, th, ti⟩))) = ⟨tb, th, ti⟩
    rw [hundo, hih]
    unfold Hook.redo
    rw [if_pos (show ti - 1 < th.length - 1 by omega)]
    have he : ti - 1 + 1 = ti := by omega
    rw [he, hsync]

theorem undo_history (s : HistoryState) : (Hook.undo s).history = s.history := by
  unfold Hook.undo
  split
  · split <;> rfl
  · rfl

theorem undo_index (s : HistoryState) :
    (Hook.undo s).currentHistoryIndex = s.currentHistoryIndex - 1 := by
  unfold Hook.undo
  split
  · split <;> rfl
  · rename_i h
    omega

theorem undoN_history (k : Nat) : ∀ s : HistoryState, (Hook.undoN k s).history = s.history := by
  induction k with
  | zero => intro s; rfl
  | succ n ih =>
    intro s
    show (Hook.undoN n (Hook.undo s)).history = s.history
    rw [ih, undo_history]

theorem undoN_index (k : Nat) :
    ∀ s : HistoryState, (Hook.undoN k s).currentHistoryIndex = s.currentHistoryIndex - k := by
  induction k with
  | zero => intro s; rfl
  | succ n ih =>
    intro s
    show (Hook.undoN n (Hook.undo s)).currentHistoryIndex = _
    rw [ih, undo_index]
    omega

theorem redo_of_last (t : HistoryState)
    (h : t.history.length - 1 ≤ t.currentHistoryIndex) : Hook.redo t = t := by
  unfold Hook.redo
  rw [if_neg (by omega)]

theorem redoN_fixed (m : Nat) (t : HistoryState) (h : Hook.redo t = t) :
    Hook.redoN m t = t := by
  induction m with
  | zero => rfl
  | succ n ih =>
    show Hook.redo (Hook.redoN n t) = t
    rw [ih, h]

/-- C3: for any initial history state satisfying the index invariant
and any sequence of commits, undoing `N` times then redoing `N` times
(`N` at most the number of commits) leaves the live board equal to the
board immediately after the commit sequence. -/
theorem history_undo_redo_roundtrip (s : HistoryState) (snaps : List (List BrickData))
    (N : Nat) (hInv : s.currentHistoryIndex < s.history.length)
    (hN : N ≤ snaps.length) :
    (Hook.redoN N (Hook.undoN N (Hook.commits s snaps))).bricks
      = (Hook.commits s snaps).bricks := by
  rcases Nat.eq_zero_or_pos N with rfl | hNpos
  · rfl
  · have hf := commits_facts snaps s hInv
    have hne : snaps ≠ [] := by
      intro h
      rw [h] at hN
      simp at hN
      omega
    have hNle : N ≤ (Hook.commits s snaps).currentHistoryIndex := by
      rw [hf.1]; omega
    rw [redoN_undoN_cancel N (Hook.commits s snaps) hNle hf.2.1 (hf.2.2.2 hne)]

/-- C3 (witness): the round trip on a concrete two-commit sequence with
`N = 2` starting from the initial hook state. -/
theorem history_undo_redo_roundtrip_witness :
    (Hook.redoN 2 (Hook.undoN 2 (Hook.commits ⟨[], [[]], 0⟩
        [[⟨1, 0, 0, 0, "A", none, none, none, none, none, none, none⟩],
         [⟨2, 1, 0, 0, "B", none, none, none, none, none, none, none⟩]]))).bricks
      = (Hook.commits ⟨[], [[]], 0⟩
        [[⟨1, 0, 0, 0, "A", none, none, none, none, none, none, none⟩],
         [⟨2, 1, 0, 0, "B", none, none, none, none, none, none, none⟩]]).bricks :=
  history_undo_redo_roundtrip _ _ _ (by decide) (by decide)

/-- C4: `saveToHistory` truncates the history to positions `0..index`,
appends the new snapshot, increments the index by one and sets the live
board to the new snapshot; consequently after any number of undos
followed by a commit, every number of subsequent redos is a no-op (the
redo branch is discarded). -/
theorem commit_truncates_and_discards_redo (s : HistoryState) (nb : List BrickData)
    (hInv : s.currentHistoryIndex < s.history.length) (k m : Nat) :
    Hook.saveToHistory s nb =
      ⟨nb, s.history.take (s.currentHistoryIndex + 1) ++ [nb], s.currentHistoryIndex + 1⟩
    ∧ Hook.redoN m (Hook.saveToHistory (Hook.undoN k s) nb)
        = Hook.saveToHistory (Hook.undoN k s) nb := by
  refine ⟨rfl, ?_⟩
  apply redoN_fixed
  apply redo_of_last
  have h1 : (Hook.undoN k s).currentHistoryIndex = s.currentHistoryIndex - k :=
    undoN_index k s
  have h2 : (Hook.undoN k s).history = s.history := undoN_history k s
  have hInv' : (Hook.undoN k s).currentHistoryIndex < (Hook.undoN k s).history.length := by
    rw [h1, h2]; omega
  have hsf := saveToHistory_fields (Hook.undoN k s) nb hInv'
  omega

/-- C4 (witness): the commit equation and redo-discard on a concrete
state that has been undone once. -/
theorem commit_truncates_and_discards_redo_witness :
    Hook.saveToHistory ⟨[], [[], []], 1⟩ [] = ⟨[], [[], [], []], 2⟩
    ∧ Hook.redoN 3 (Hook.saveToHistory (Hook.undoN 1 ⟨[], [[], []], 1⟩) [])
        = Hook.saveToHistory (Hook.undoN 1 ⟨[], [[], []], 1⟩) [] :=
  commit_truncates_and_discards_redo ⟨[], [[], []], 1⟩ [] (by decide) 1 3

/-- C5: dropping a held Lifted Group at an anchor where some member,
placed at `anchor + offset`, shares a `y` layer with and XZ-overlaps an
existing board brick changes nothing: the board list, the history
sequence and index, and the held group (members and offsets) are all
unchanged. -/
theorem drop_collision_rejected (s : AppState) (g : LiftedGroup) (ax ay az : Int)
    (hg : s.liftedGroup = some g)
    (hcol : ∃ pb ∈ App.proposedBricks g ax ay az, ∃ eb ∈ s.bricks,
        pb.y = eb.y ∧ overlapsXZb pb eb = true) :
    App.handleDropGroup s ax ay az = s := by
  unfold App.handleDropGroup
  rw [hg]
  have hany : (App.proposedBricks g ax ay az).any (fun pb =>
      s.bricks.any (fun eb => overlapsXZb pb eb && pb.y == eb.y)) = true := by
    rw [List.any_eq_true]
    obtain ⟨pb, hpb, eb, heb, hy, hov⟩ := hcol
    exact ⟨pb, hpb, List.any_eq_true.mpr ⟨eb, heb, by rw [hov, hy]; simp⟩⟩
  exact if_pos hany

/-- C5 (witness): a concrete rejected drop (a held `1×1` member dropped
onto the cell of an existing same-layer brick). -/
theorem drop_collision_rejected_witness :
    App.handleDropGroup
      ⟨[⟨0, 0, 0, 0, "A", some 1, some 1, none, none, none, none, none⟩],
       [[⟨0, 0, 0, 0, "A", some 1, some 1, none, none, none, none, none⟩]], 0,
       some ⟨[⟨1, 5, 5, 5, "B", some 1, some 1, none, none, some 0, some 0, some 0⟩], 1⟩, 2⟩
      0 0 0
    = ⟨[⟨0, 0, 0, 0, "A", some 1, some 1, none, none, none, none, none⟩],
       [[⟨0, 0, 0, 0, "A", some 1, some 1, none, none, none, none, none⟩]], 0,
       some ⟨[⟨1, 5, 5, 5, "B", some 1, some 1, none, none, some 0, some 0, some 0⟩], 1⟩, 2⟩ :=
  drop_collision_rejected _ _ 0 0 0 rfl (by decide)

theorem bfsLift_nil (all : List BrickData) (resultIds : List Nat) :
    bfsLift all [] resultIds = resultIds := by
  rw [bfsLift.eq_def]

theorem bfsLift_cons (all : List BrickData) (current : BrickData)
    (rest : List BrickData) (resultIds : List Nat) :
    bfsLift all (current :: rest) resultIds =
      bfsLift all (rest ++ supportedBy all current resultIds)
        (resultIds ++ (supportedBy all current resultIds).map (fun b => b.id)) := by
  rw [bfsLift.eq_def]

theorem mem_supportedBy (all : List BrickData) (current : BrickData)
    (resultIds : List Nat) (b : BrickData) :
    b ∈ supportedBy all current resultIds ↔
      b ∈ all ∧ b.id ∉ resultIds ∧ b.y = current.y + 1
        ∧ overlapsXZb current b = true := by
  rw [supportedBy, List.mem_filter]
  simp [and_assoc]

theorem find_id_of_nodup (all : List BrickData) (a : BrickData)
    (hnd : (all.map (fun b => b.id)).Nodup) (ha : a ∈ all) :
    all.find? (fun b => b.id == a.id) = some a := by
  induction all with
  | nil => cases ha
  | cons hd tl ih =>
    by_cases h : hd.id = a.id
    · have heq : hd = a := by
        rcases List.mem_cons.mp ha with rfl | hmem
        · rfl
        · exfalso
          rw [List.map_cons, List.nodup_cons] at hnd
          exact hnd.1 (h ▸ List.mem_map.mpr ⟨a, hmem, rfl⟩)
      subst heq
      exact List.find?_cons_of_pos _ (by simp)
    · rcases List.mem_cons.mp ha with rfl | hmem
      · exact absurd rfl h
      · rw [List.find?_cons_of_neg _ (by simpa using h)]
        rw [List.map_cons, List.nodup_cons] at hnd
        exact ih hnd.2 hmem

theorem bfsLift_sound (all : List BrickData) (start : BrickData)
    (queue : List BrickData) (resultIds : List Nat)
    (hq : ∀ b ∈ queue, UpReach all start b)
    (hres : ∀ i ∈ resultIds, ∃ b, UpReach all start b ∧ b.id = i) :
    ∀ i ∈ bfsLift all queue resultIds, ∃ b, UpReach all start b ∧ b.id = i := by
  induction queue, resultIds using bfsLift.induct all with
  | case1 resultIds =>
    rw [bfsLift_nil]
    exact hres
  | case2 current rest resultIds ih =>
    rw [bfsLift_cons]
    apply ih
    · intro b hb
      rcases List.mem_append.mp hb with hb | hb
      · exact hq b (List.mem_cons_of_mem _ hb)
      · obtain ⟨hball, _, hy, hov⟩ := (mem_supportedBy all current resultIds b).mp hb
        exact UpReach.step (hq current (List.mem_cons_self _ _)) hball hy hov
    · intro i hi
      rcases List.mem_append.mp hi with hi | hi
      · exact hres i hi
      · rw [List.mem_map] at hi
        obtain ⟨b, hb, rfl⟩ := hi
        obtain ⟨hball, _, hy, hov⟩ := (mem_supportedBy all current resultIds b).mp hb
        exact ⟨b, UpReach.step (hq current (List.mem_cons_self _ _)) hball hy hov, rfl⟩

theorem bfsLift_mono (all : List BrickData) (queue : List BrickData)
    (resultIds : List Nat) : ∀ i ∈ resultIds, i ∈ bfsLift all queue resultIds := by
  induction queue, resultIds using bfsLift.induct all with
  | case1 resultIds =>
    rw [bfsLift_nil]
    exact fun i hi => hi
  | case2 current rest resultIds ih =>
    rw [bfsLift_cons]
    exact fun i hi => ih i (List.mem_append_left _ hi)

theorem bfsLift_closed (all : List BrickData)
    (hnd : (all.map (fun b => b.id)).Nodup)
    (queue : List BrickData) (resultIds : List Nat)
    (hq : ∀ b ∈ queue, b ∈ all)
    (hinv : ∀ b ∈ all, b.id ∈ resultIds → b ∈ queue ∨ expanded all b resultIds) :
    ∀ b ∈ all, b.id ∈ bfsLift all queue resultIds →
      expanded all b (bfsLift all queue resultIds) := by
  induction queue, resultIds using bfsLift.induct all with
  | case1 resultIds =>
    rw [bfsLift_nil]
    intro b hb hid
    rcases hinv b hb hid with h | h
    · exact absurd h (List.not_mem_nil b)
    · exact h
  | case2 current rest resultIds ih =>
    rw [bfsLift_cons]
    apply ih
    · intro b' hb'
      rcases List.mem_append.mp hb' with h | h
      · exact hq b' (List.mem_cons_of_mem _ h)
      · exact ((mem_supportedBy all current resultIds b').mp h).1
    · intro b' hb'mem hid'
      rcases List.mem_append.mp hid' with hold | hnew
      · rcases hinv b' hb'mem hold with hq' | hexp
        · rcases List.mem_cons.mp hq' with rfl | hrest
          · right
            intro c hc hcy hcov
            by_cases hcid : c.id ∈ resultIds
            · exact List.mem_append_left _ hcid
            · have hcs : c ∈ supportedBy all b' resultIds :=
                (mem_supportedBy all b' resultIds c).mpr ⟨hc, hcid, hcy, hcov⟩
              exact List.mem_append_right _ (List.mem_map.mpr ⟨c, hcs, rfl⟩)
          · exact Or.inl (List.mem_append_left _ hrest)
        · right
          intro c hc hcy hcov
          exact List.mem_append_left _ (hexp c hc hcy hcov)
      · left
        rw [List.mem_map] at hnew
        obtain ⟨b'', hb'', hbid⟩ := hnew
        have hb''all : b'' ∈ all := ((mem_supportedBy all current resultIds b'').mp hb'').1
        have heq : b' = b'' :=
          List.inj_on_of_nodup_map hnd hb'mem hb''all hbid.symm
        subst heq
        exact List.mem_append_right _ hb''

theorem upReach_mem (all : List BrickData) (start b : BrickData)
    (hstart : start ∈ all) (h : UpReach all start b) : b ∈ all := by
  induction h with
  | base => exact hstart
  | step _ hc _ _ _ => exact hc

theorem bfsLift_complete (all : List BrickData) (start : BrickData)
    (hnd : (all.map (fun b => b.id)).Nodup) (hstart : start ∈ all) :
    ∀ b, UpReach all start b → b.id ∈ bfsLift all [start] [start.id] := by
  intro b h
  induction h with
  | base => exact bfsLift_mono all [start] [start.id] _ (List.mem_singleton_self _)
  | @step b' c hb' hc hcy hcov ih =>
    have hclosed := bfsLift_closed all hnd [start] [start.id]
      (by intro b'' hb''; rw [List.mem_singleton] at hb''; subst hb''; exact hstart)
      (by
        intro b'' hb'' hid
        rw [List.mem_singleton] at hid
        have : b'' = start := List.inj_on_of_nodup_map hnd hb'' hstart hid
        subst this
        exact Or.inl (List.mem_singleton_self _))
      b' (upReach_mem all start b' hstart hb') ih
    exact hclosed c hc hcy hcov

/-- C2: for every board with duplicate-free ids and every brick on it,
`getLiftableBricks` returns exactly the ids of the bricks reachable
from the start brick by repeatedly stepping to board bricks at exactly
`y + 1` of an already-collected brick that XZ-overlap it (the start
brick included); in particular no brick below or beside the collected
set is ever included. -/
theorem getLiftableBricks_characterization (all : List BrickData) (start : BrickData)
    (hnd : (all.map (fun b => b.id)).Nodup) (hstart : start ∈ all) :
    ∀ i : Nat, i ∈ getLiftableBricks start.id all ↔
      ∃ b, UpReach all start b ∧ b.id = i := by
  intro i
  unfold getLiftableBricks
  rw [find_id_of_nodup all start hnd hstart]
  constructor
  · intro hi
    exact bfsLift_sound all start [start] [start.id]
      (by intro b hb; rw [List.mem_singleton] at hb; subst hb; exact UpReach.base)
      (by intro j hj; rw [List.mem_singleton] at hj; exact ⟨start, UpReach.base, hj.symm⟩)
      i hi
  · rintro ⟨b, hreach, rfl⟩
    exact bfsLift_complete all start hnd hstart b hreach

/-- C2 (witness): the characterization applied to the spec's 3-layer
stack (bricks at `y = 0, 1, 2`, all at cell `(0,0)`), starting from the
middle brick (id 1). -/
theorem getLiftableBricks_characterization_witness :
    2 ∈ getLiftableBricks 1
        [⟨0, 0, 0, 0, "A", some 1, some 1, none, none, none, none, none⟩,
         ⟨1, 0, 1, 0, "A", some 1, some 1, none, none, none, none, none⟩,
         ⟨2, 0, 2, 0, "A", some 1, some 1, none, none, none, none, none⟩] ↔
      ∃ b, UpReach
        [⟨0, 0, 0, 0, "A", some 1, some 1, none, none, none, none, none⟩,
         ⟨1, 0, 1, 0, "A", some 1, some 1, none, none, none, none, none⟩,
         ⟨2, 0, 2, 0, "A", some 1, some 1, none, none, none, none, none⟩]
        ⟨1, 0, 1, 0, "A", some 1, some 1, none, none, none, none, none⟩ b ∧ b.id = 2 :=
  getLiftableBricks_characterization _
    ⟨1, 0, 1, 0, "A", some 1, some 1, none, none, none, none, none⟩
    (by decide) (by decide) 2

/-- C8 (amended): a **ground-plane** placement request whose snapped
`x` or `z` lies outside `[-MAX_BOARD_SIZE/2, MAX_BOARD_SIZE/2]` is
silently ignored: the hover position becomes `none`, so the subsequent
click changes nothing — no brick is added and no history entry is
created.  The request never reaches `addBrick`, which performs no
bounds or collision logic of its own, so the rejection happens before
any collision check could run.  (This bounds clamp lives only in the
ground-plane pipeline: the brick-face click path, `onBrickClick` in
BUILD mode, calls `addBrick` with no bounds check at all and can place
a brick outside the board.) -/
theorem out_of_bounds_placement_ignored (toolMode : ToolMode) (px pz : Rat)
    (s : AppState) (color : String) (ty : BrickType) (rotated : Bool)
    (hout : snapToGrid px < -MAX_BOARD_SIZE / 2 ∨ snapToGrid px > MAX_BOARD_SIZE / 2
      ∨ snapToGrid pz < -MAX_BOARD_SIZE / 2 ∨ snapToGrid pz > MAX_BOARD_SIZE / 2) :
    handlePointerMove toolMode px pz = none
    ∧ handleClick toolMode (handlePointerMove toolMode px pz) s color ty rotated = s := by
  have hmove : handlePointerMove toolMode px pz = none := by
    unfold handlePointerMove
    by_cases hmode : toolMode ≠ ToolMode.BUILD ∧ toolMode ≠ ToolMode.MOVE
    · rw [if_pos hmode]
    · rw [if_neg hmode, if_pos hout]
  refine ⟨hmove, ?_⟩
  rw [hmove]
  cases toolMode <;> rfl

theorem snapToGrid_intCast (n : Int) : snapToGrid ((n : Int) : ℚ) = n := by
  have h1 : snapToGrid ((n : Int) : ℚ) = ⌊((n : ℚ) + 1 / 2)⌋ := rfl
  rw [h1, Int.floor_int_add]
  norm_num

/-- C8 (witness): a concrete out-of-bounds pointer position
(`x = 11 > 10`) in BUILD mode over the initial state. -/
theorem out_of_bounds_placement_ignored_witness :
    handlePointerMove ToolMode.BUILD ((11 : Int) : ℚ) 0 = none
    ∧ handleClick ToolMode.BUILD (handlePointerMove ToolMode.BUILD ((11 : Int) : ℚ) 0)
        initialState "#EF4444" ⟨"1x1", 1, 1, none⟩ false = initialState :=
  out_of_bounds_placement_ignored ToolMode.BUILD ((11 : Int) : ℚ) 0 initialState
    "#EF4444" ⟨"1x1", 1, 1, none⟩ false
    (Or.inr (Or.inl (by rw [snapToGrid_intCast]; decide)))

theorem start_mem_getLiftableBricks (all : List BrickData) (a : BrickData)
    (hnd : (all.map (fun b => b.id)).Nodup) (ha : a ∈ all) :
    a.id ∈ getLiftableBricks a.id all := by
  unfold getLiftableBricks
  rw [find_id_of_nodup all a hnd ha]
  exact bfsLift_mono all [a] [a.id] a.id (List.mem_singleton_self _)

/-- Every brick emitted by `handleLiftBrick` for a member `b` restores
to `b` itself when dropped at the anchor's own coordinates and its
offsets are cleared (provided `b` carried no transient offsets). -/
theorem restore_withOffsets (a b : BrickData)
    (hx : b.offsetX = none) (hy : b.offsetY = none) (hz : b.offsetZ = none) :
    ({ App.withOffsets a b with
       x := a.x + (App.withOffsets a b).offsetX.getD 0,
       y := a.y + (App.withOffsets a b).offsetY.getD 0,
       z := a.z + (App.withOffsets a b).offsetZ.getD 0,
       offsetX := none, offsetY := none, offsetZ := none } : BrickData) = b := by
  cases b with
  | mk idv xv yv zv cv sx sz r sp ox oy oz =>
    simp only at hx hy hz
    subst hx; subst hy; subst hz
    simp only [App.withOffsets, Option.getD_some]
    refine BrickData.mk.injEq .. |>.mpr ?_
    refine ⟨rfl, by omega, by omega, by omega, rfl, rfl, rfl, rfl, rfl, rfl, rfl, rfl⟩

theorem proposedBricks_restore (a : BrickData) (l : List BrickData)
    (h : ∀ b ∈ l, b.offsetX = none ∧ b.offsetY = none ∧ b.offsetZ = none) :
    App.proposedBricks ⟨l.map (App.withOffsets a), a.id⟩ a.x a.y a.z = l := by
  unfold App.proposedBricks
  rw [List.map_map]
  have hcong : ∀ b ∈ l, ((fun b => ({ b with
      x := a.x + b.offsetX.getD 0, y := a.y + b.offsetY.getD 0,
      z := a.z + b.offsetZ.getD 0,
      offsetX := none, offsetY := none, offsetZ := none } : BrickData))
        ∘ App.withOffsets a) b = id b := by
    intro b hb
    simp only [Function.comp_apply, id_eq]
    exact restore_withOffsets a b (h b hb).1 (h b hb).2.1 (h b hb).2.2
  rw [List.map_congr_left hcong, List.map_id]

theorem handleDropGroup_of_no_collision (s : AppState) (g : LiftedGroup)
    (ax ay az : Int) (hg : s.liftedGroup = some g)
    (hnc : (App.proposedBricks g ax ay az).any (fun pb =>
        s.bricks.any (fun eb => overlapsXZb pb eb && pb.y == eb.y)) = false) :
    App.handleDropGroup s ax ay az =
      { App.saveToHistory s (s.bricks ++ App.proposedBricks g ax ay az) with
        liftedGroup := none } := by
  unfold App.handleDropGroup
  rw [hg]
  exact if_neg (by rw [hnc]; exact Bool.false_ne_true)

/-- C6 (amended): on a board whose bricks carry duplicate-free ids, no
transient offsets, and no two distinct bricks sharing a layer while
overlapping in XZ (all of which hold for boards built through the app's
operations other than unchecked overlapping `addBrick` calls), lifting
any brick and immediately dropping at its original coordinates restores
the board as a set of bricks (ignoring list order). -/
theorem lift_drop_conservation (s : AppState) (a : BrickData)
    (ha : a ∈ s.bricks)
    (hnd : (s.bricks.map (fun b => b.id)).Nodup)
    (hoff : ∀ b ∈ s.bricks, b.offsetX = none ∧ b.offsetY = none ∧ b.offsetZ = none)
    (hnocol : ∀ u ∈ s.bricks, ∀ v ∈ s.bricks, u.id ≠ v.id →
        ¬(u.y = v.y ∧ overlapsXZb u v = true)) :
    ((App.handleDropGroup (App.handleLiftBrick s a.id) a.x a.y a.z).bricks).Perm
      s.bricks := by
  have hamem : a.id ∈ getLiftableBricks a.id s.bricks :=
    start_mem_getLiftableBricks s.bricks a hnd ha
  have hag : a ∈ s.bricks.filter
      (fun b => (getLiftableBricks a.id s.bricks).contains b.id) :=
    List.mem_filter.mpr ⟨ha, by simpa using hamem⟩
  have hgnd : ((s.bricks.filter
      (fun b => (getLiftableBricks a.id s.bricks).contains b.id)).map
        (fun b => b.id)).Nodup :=
    List.Nodup.sublist (List.Sublist.map _ (List.filter_sublist s.bricks)) hnd
  have hfind : (s.bricks.filter
      (fun b => (getLiftableBricks a.id s.bricks).contains b.id)).find?
        (fun b => b.id == a.id) = some a :=
    find_id_of_nodup _ a hgnd hag
  have hlift : App.handleLiftBrick s a.id =
      { App.saveToHistory s (s.bricks.filter
          (fun b => !(getLiftableBricks a.id s.bricks).contains b.id)) with
        liftedGroup := some ⟨(s.bricks.filter
          (fun b => (getLiftableBricks a.id s.bricks).contains b.id)).map
            (App.withOffsets a), a.id⟩ } := by
    unfold App.handleLiftBrick
    rw [hfind]
  rw [hlift]
  have hprop := proposedBricks_restore a
    (s.bricks.filter (fun b => (getLiftableBricks a.id s.bricks).contains b.id))
    (fun b hb => hoff b (List.mem_filter.mp hb).1)
  have hnc : (App.proposedBricks ⟨(s.bricks.filter
      (fun b => (getLiftableBricks a.id s.bricks).contains b.id)).map
        (App.withOffsets a), a.id⟩ a.x a.y a.z).any (fun pb =>
      (s.bricks.filter
        (fun b => !(getLiftableBricks a.id s.bricks).contains b.id)).any
          (fun eb => overlapsXZb pb eb && pb.y == eb.y)) = false := by
    rw [hprop, List.any_eq_false]
    intro pb hpb
    rw [Bool.not_eq_true, List.any_eq_false]
    intro eb heb
    have hpb' := List.mem_filter.mp hpb
    have heb' := List.mem_filter.mp heb
    have hne : pb.id ≠ eb.id := by
      intro hsame
      have h1 : (getLiftableBricks a.id s.bricks).contains eb.id = true :=
        hsame ▸ hpb'.2
      have h2 : (getLiftableBricks a.id s.bricks).contains eb.id = false := by
        simpa using heb'.2
      rw [h1] at h2
      exact absurd h2 (by simp)
    intro hcond
    rw [Bool.and_eq_true, beq_iff_eq] at hcond
    exact hnocol pb hpb'.1 eb heb'.1 hne ⟨hcond.2, hcond.1⟩
  rw [handleDropGroup_of_no_collision _ _ _ _ _ rfl hnc]
  show ((s.bricks.filter
      (fun b => !(getLiftableBricks a.id s.bricks).contains b.id))
        ++ App.proposedBricks _ a.x a.y a.z).Perm s.bricks
  rw [hprop]
  exact List.perm_append_comm.trans
    (List.filter_append_perm
      (fun b => (getLiftableBricks a.id s.bricks).contains b.id) s.bricks)

/-- C6 (witness): lift/drop conservation on a concrete two-brick tower
(lifting the bottom brick, which collects both, and dropping it back). -/
theorem lift_drop_conservation_witness :
    ((App.handleDropGroup (App.handleLiftBrick
        ⟨[⟨0, 0, 0, 0, "#EF4444", some 1, some 1, some 0, none, none, none, none⟩,
          ⟨1, 0, 1, 0, "#3B82F6", some 1, some 1, some 0, none, none, none, none⟩],
         [[⟨0, 0, 0, 0, "#EF4444", some 1, some 1, some 0, none, none, none, none⟩,
           ⟨1, 0, 1, 0, "#3B82F6", some 1, some 1, some 0, none, none, none, none⟩]],
         0, none, 2⟩ 0) 0 0 0).bricks).Perm
      [⟨0, 0, 0, 0, "#EF4444", some 1, some 1, some 0, none, none, none, none⟩,
       ⟨1, 0, 1, 0, "#3B82F6", some 1, some 1, some 0, none, none, none, none⟩] :=
  lift_drop_conservation _
    ⟨0, 0, 0, 0, "#EF4444", some 1, some 1, some 0, none, none, none, none⟩
    (by decide) (by decide) (by decide) (by decide)

/-- C6 (counterexample): boards with two same-layer overlapping bricks
are reachable (manual `addBrick` performs no collision check), and on
such a board lift-then-drop at the original coordinates does not
restore the board: the drop is rejected by the collision check against
the overlapping remaining brick, leaving the lifted brick off the
board. -/
theorem lift_drop_overlap_counterexample :
    Reachable (App.addBrick (App.addBrick initialState 0 0 0 "#EF4444"
        ⟨"1x1", 1, 1, none⟩ false) 0 0 0 "#3B82F6" ⟨"1x1", 1, 1, none⟩ false)
    ∧ (∃ b ∈ (App.addBrick (App.addBrick initialState 0 0 0 "#EF4444"
        ⟨"1x1", 1, 1, none⟩ false) 0 0 0 "#3B82F6" ⟨"1x1", 1, 1, none⟩ false).bricks,
        b.id = 1)
    ∧ ¬ ((App.handleDropGroup (App.handleLiftBrick
        (App.addBrick (App.addBrick initialState 0 0 0 "#EF4444"
          ⟨"1x1", 1, 1, none⟩ false) 0 0 0 "#3B82F6" ⟨"1x1", 1, 1, none⟩ false) 1)
        0 0 0).bricks).Perm
      (App.addBrick (App.addBrick initialState 0 0 0 "#EF4444"
        ⟨"1x1", 1, 1, none⟩ false) 0 0 0 "#3B82F6" ⟨"1x1", 1, 1, none⟩ false).bricks := by
  refine ⟨Reachable.add 0 0 0 "#3B82F6" ⟨"1x1", 1, 1, none⟩ false
      (Reachable.add 0 0 0 "#EF4444" ⟨"1x1", 1, 1, none⟩ false
        Reachable.init (by decide)) (by decide), by decide, ?_⟩
  have hs : App.addBrick (App.addBrick initialState 0 0 0 "#EF4444"
      ⟨"1x1", 1, 1, none⟩ false) 0 0 0 "#3B82F6" ⟨"1x1", 1, 1, none⟩ false
      = ⟨[⟨0, 0, 0, 0, "#EF4444", some 1, some 1, some 0, none, none, none, none⟩,
          ⟨1, 0, 0, 0, "#3B82F6", some 1, some 1, some 0, none, none, none, none⟩],
         [[],
          [⟨0, 0, 0, 0, "#EF4444", some 1, some 1, some 0, none, none, none, none⟩],
          [⟨0, 0, 0, 0, "#EF4444", some 1, some 1, some 0, none, none, none, none⟩,
           ⟨1, 0, 0, 0, "#3B82F6", some 1, some 1, some 0, none, none, none, none⟩]],
         2, none, 2⟩ := by decide
  rw [hs]
  have hids : getLiftableBricks 1
      [⟨0, 0, 0, 0, "#EF4444", some 1, some 1, some 0, none, none, none, none⟩,
       ⟨1, 0, 0, 0, "#3B82F6", some 1, some 1, some 0, none, none, none, none⟩] = [1] := by
    unfold getLiftableBricks
    rw [show List.find? (fun b => b.id == 1)
        [⟨0, 0, 0, 0, "#EF4444", some 1, some 1, some 0, none, none, none, none⟩,
         (⟨1, 0, 0, 0, "#3B82F6", some 1, some 1, some 0, none, none, none,
            none⟩ : BrickData)]
      = some ⟨1, 0, 0, 0, "#3B82F6", some 1, some 1, some 0, none, none, none, none⟩
      from by decide]
    dsimp only
    rw [bfsLift_cons]
    rw [show supportedBy
        [⟨0, 0, 0, 0, "#EF4444", some 1, some 1, some 0, none, none, none, none⟩,
         ⟨1, 0, 0, 0, "#3B82F6", some 1, some 1, some 0, none, none, none, none⟩]
        ⟨1, 0, 0, 0, "#3B82F6", some 1, some 1, some 0, none, none, none, none⟩ [1]
      = [] from by decide]
    simp [bfsLift_nil]
  have hlift : App.handleLiftBrick
      ⟨[⟨0, 0, 0, 0, "#EF4444", some 1, some 1, some 0, none, none, none, none⟩,
        ⟨1, 0, 0, 0, "#3B82F6", some 1, some 1, some 0, none, none, none, none⟩],
       [[],
        [⟨0, 0, 0, 0, "#EF4444", some 1, some 1, some 0, none, none, none, none⟩],
        [⟨0, 0, 0, 0, "#EF4444", some 1, some 1, some 0, none, none, none, none⟩,
         ⟨1, 0, 0, 0, "#3B82F6", some 1, some 1, some 0, none, none, none, none⟩]],
       2, none, 2⟩ 1
      = ⟨[⟨0, 0, 0, 0, "#EF4444", some 1, some 1, some 0, none, none, none, none⟩],
         [[],
          [⟨0, 0, 0, 0, "#EF4444", some 1, some 1, some 0, none, none, none, none⟩],
          [⟨0, 0, 0, 0, "#EF4444", some 1, some 1, some 0, none, none, none, none⟩,
           ⟨1, 0, 0, 0, "#3B82F6", some 1, some 1, some 0, none, none, none, none⟩],
          [⟨0, 0, 0, 0, "#EF4444", some 1, some 1, some 0, none, none, none, none⟩]],
         3,
         some ⟨[⟨1, 0, 0, 0, "#3B82F6", some 1, some 1, some 0, none,
                  some 0, some 0, some 0⟩], 1⟩, 2⟩ := by
    unfold App.handleLiftBrick
    dsimp only
    rw [hids]
    decide
  rw [hlift]
  rw [show App.handleDropGroup
      ⟨[⟨0, 0, 0, 0, "#EF4444", some 1, some 1, some 0, none, none, none, none⟩],
       [[],
        [⟨0, 0, 0, 0, "#EF4444", some 1, some 1, some 0, none, none, none, none⟩],
        [⟨0, 0, 0, 0, "#EF4444", some 1, some 1, some 0, none, none, none, none⟩,
         ⟨1, 0, 0, 0, "#3B82F6", some 1, some 1, some 0, none, none, none, none⟩],
        [⟨0, 0, 0, 0, "#EF4444", some 1, some 1, some 0, none, none, none, none⟩]],
       3,
       some ⟨[⟨1, 0, 0, 0, "#3B82F6", some 1, some 1, some 0, none,
                some 0, some 0, some 0⟩], 1⟩, 2⟩ 0 0 0
      = ⟨[⟨0, 0, 0, 0, "#EF4444", some 1, some 1, some 0, none, none, none, none⟩],
         [[],
          [⟨0, 0, 0, 0, "#EF4444", some 1, some 1, some 0, none, none, none, none⟩],
          [⟨0, 0, 0, 0, "#EF4444", some 1, some 1, some 0, none, none, none, none⟩,
           ⟨1, 0, 0, 0, "#3B82F6", some 1, some 1, some 0, none, none, none, none⟩],
          [⟨0, 0, 0, 0, "#EF4444", some 1, some 1, some 0, none, none, none, none⟩]],
         3,
         some ⟨[⟨1, 0, 0, 0, "#3B82F6", some 1, some 1, some 0, none,
                  some 0, some 0, some 0⟩], 1⟩, 2⟩ from by decide]
  decide

theorem IdsOk.mono {l : List BrickData} {n n' : Nat} (h : IdsOk l n) (hle : n ≤ n') :
    IdsOk l n' :=
  ⟨fun b hb => lt_of_lt_of_le (h.1 b hb) hle, h.2⟩

theorem IdsOk.sublist {l1 l2 : List BrickData} {n : Nat} (hs : l1.Sublist l2)
    (h : IdsOk l2 n) : IdsOk l1 n :=
  ⟨fun b hb => h.1 b (hs.subset hb), List.Nodup.sublist (List.Sublist.map _ hs) h.2⟩

theorem stinv_bricks_idsOk (s : AppState) (h : StInv s) : IdsOk s.bricks s.nextId :=
  h.2.2.1 s.bricks (List.getElem?_mem h.2.1)

theorem appSave_fields (s : AppState) (nb : List BrickData)
    (hInv : s.currentHistoryIndex < s.history.length) :
    (App.saveToHistory s nb).currentHistoryIndex
        < (App.saveToHistory s nb).history.length
    ∧ (App.saveToHistory s nb).history[(App.saveToHistory s nb).currentHistoryIndex]?
        = some nb
    ∧ (∀ snap ∈ (App.saveToHistory s nb).history, snap ∈ s.history ∨ snap = nb) := by
  have hlen : (s.history.take (s.currentHistoryIndex + 1)).length
      = s.currentHistoryIndex + 1 := by
    rw [List.length_take]
    omega
  refine ⟨?_, ?_, ?_⟩
  · show s.currentHistoryIndex + 1
      < (s.history.take (s.currentHistoryIndex + 1) ++ [nb]).length
    rw [List.length_append, hlen]
    simp
  · show (s.history.take (s.currentHistoryIndex + 1) ++ [nb])[s.currentHistoryIndex + 1]?
      = some nb
    rw [List.getElem?_append]
    simp only [hlen]
    rw [if_neg (by omega)]
    simp
  · intro snap hsnap
    rcases List.mem_append.mp hsnap with h | h
    · exact Or.inl (List.take_subset _ _ h)
    · rw [List.mem_singleton] at h
      exact Or.inr h

theorem saveToHistory_stinv (s : AppState) (nb : List BrickData) (h : StInv s)
    (hnb : IdsOk nb s.nextId)
    (hdis : ∀ g, s.liftedGroup = some g → ∀ m ∈ g.bricks, ∀ b ∈ nb, m.id ≠ b.id) :
    StInv (App.saveToHistory s nb) := by
  obtain ⟨hidx, hsync, hhist, hlift⟩ := h
  have hf := appSave_fields s nb hidx
  refine ⟨hf.1, ?_, ?_, ?_⟩
  · exact hf.2.1
  · intro snap hsnap
    rcases hf.2.2 snap hsnap with hs | hs
    · exact hhist snap hs
    · subst hs
      exact hnb
  · intro g hg
    have hg' : s.liftedGroup = some g := hg
    obtain ⟨h1, h2, _, h4⟩ := hlift g hg'
    exact ⟨h1, h2, fun m hm b hb => hdis g hg' m hm b hb, h4⟩

theorem save_stinv_general (s : AppState) (nb : List BrickData) (n' : Nat)
    (lg : Option LiftedGroup) (h : StInv s) (hle : s.nextId ≤ n')
    (hnb : IdsOk nb n')
    (hlg : ∀ g, lg = some g →
        (∀ m ∈ g.bricks, m.id < n') ∧ (g.bricks.map (fun b => b.id)).Nodup
        ∧ (∀ m ∈ g.bricks, ∀ b ∈ nb, m.id ≠ b.id)
        ∧ (∃ m ∈ g.bricks, m.id = g.anchorId)) :
    StInv { App.saveToHistory s nb with liftedGroup := lg, nextId := n' } := by
  obtain ⟨hidx, hsync, hhist, _⟩ := h
  have hf := appSave_fields s nb hidx
  refine ⟨hf.1, hf.2.1, ?_, hlg⟩
  intro snap hsnap
  rcases hf.2.2 snap hsnap with hs | hs
  · exact (hhist snap hs).mono hle
  · subst hs
    exact hnb

theorem map_id_of_preserve (f : BrickData → BrickData) (hf : ∀ b, (f b).id = b.id)
    (l : List BrickData) : (l.map f).map (fun b => b.id) = l.map (fun b => b.id) := by
  rw [List.map_map]
  exact List.map_congr_left (fun b _ => hf b)

theorem addBrick_stinv (s : AppState) (x y z : Int) (color : String) (ty : BrickType)
    (rot : Bool) (h : StInv s) : StInv (App.addBrick s x y z color ty rot) := by
  have hb := stinv_bricks_idsOk s h
  have hnb : IdsOk (s.bricks ++
      [{ id := s.nextId, x := x, y := y, z := z, color := color,
         sizeX := some ((if rot then ty.sizeZ else ty.sizeX : Nat) : Int),
         sizeZ := some ((if rot then ty.sizeX else ty.sizeZ : Nat) : Int),
         rotation := some (if rot then 90 else 0),
         specialType := ty.specialType }]) (s.nextId + 1) := by
    constructor
    · intro b hbmem
      rcases List.mem_append.mp hbmem with hm | hm
      · exact lt_of_lt_of_le (hb.1 b hm) (Nat.le_succ _)
      · rw [List.mem_singleton] at hm
        subst hm
        exact Nat.lt_succ_self _
    · rw [List.map_append, List.nodup_append]
      refine ⟨hb.2, by simp, ?_⟩
      intro i him
      rw [List.mem_map] at him
      obtain ⟨b, hbm, rfl⟩ := him
      have := hb.1 b hbm
      simp only [List.map_cons, List.map_nil, List.mem_singleton]
      omega
  have hlg : ∀ g, s.liftedGroup = some g →
      (∀ m ∈ g.bricks, m.id < s.nextId + 1) ∧ (g.bricks.map (fun b => b.id)).Nodup
      ∧ (∀ m ∈ g.bricks, ∀ b ∈ s.bricks ++
          [{ id := s.nextId, x := x, y := y, z := z, color := color,
             sizeX := some ((if rot then ty.sizeZ else ty.sizeX : Nat) : Int),
             sizeZ := some ((if rot then ty.sizeX else ty.sizeZ : Nat) : Int),
             rotation := some (if rot then 90 else 0),
             specialType := ty.specialType }], m.id ≠ b.id)
      ∧ (∃ m ∈ g.bricks, m.id = g.anchorId) := by
    intro g hg
    obtain ⟨h1, h2, h3, h4⟩ := h.2.2.2 g hg
    refine ⟨fun m hm => lt_of_lt_of_le (h1 m hm) (Nat.le_succ _), h2, ?_, h4⟩
    intro m hm b hbmem
    rcases List.mem_append.mp hbmem with hmem | hmem
    · exact h3 m hm b hmem
    · rw [List.mem_singleton] at hmem
      subst hmem
      have := h1 m hm
      simp only
      omega
  exact save_stinv_general s _ (s.nextId + 1) s.liftedGroup h (Nat.le_succ _) hnb hlg

theorem removeBrick_stinv (s : AppState) (id : Nat) (h : StInv s) :
    StInv (App.removeBrick s id) := by
  have hb := stinv_bricks_idsOk s h
  have hnb : IdsOk (s.bricks.filter (fun b => !(b.id == id))) s.nextId :=
    hb.sublist (List.filter_sublist _)
  have hlg : ∀ g, s.liftedGroup = some g →
      (∀ m ∈ g.bricks, m.id < s.nextId) ∧ (g.bricks.map (fun b => b.id)).Nodup
      ∧ (∀ m ∈ g.bricks, ∀ b ∈ s.bricks.filter (fun b => !(b.id == id)), m.id ≠ b.id)
      ∧ (∃ m ∈ g.bricks, m.id = g.anchorId) := by
    intro g hg
    obtain ⟨h1, h2, h3, h4⟩ := h.2.2.2 g hg
    exact ⟨h1, h2, fun m hm b hbm => h3 m hm b (List.mem_filter.mp hbm).1, h4⟩
  exact save_stinv_general s _ s.nextId s.liftedGroup h (le_refl _) hnb hlg

theorem clearBricks_stinv (s : AppState) (h : StInv s) : StInv (App.clearBricks s) :=
  save_stinv_general s [] s.nextId none h (le_refl _)
    ⟨by simp, by simp⟩ (fun g hg => by cases hg)

theorem undo_stinv (s : AppState) (h : StInv s) : StInv (App.undo s) := by
  obtain ⟨hidx, hsync, hhist, hlift⟩ := h
  unfold App.undo
  by_cases h0 : 0 < s.currentHistoryIndex
  · rw [if_pos h0]
    have hin : s.currentHistoryIndex - 1 < s.history.length := by omega
    rw [List.getElem?_eq_getElem hin]
    exact ⟨hin, List.getElem?_eq_getElem hin, hhist, fun g hg => by cases hg⟩
  · rw [if_neg h0]
    exact ⟨hidx, hsync, hhist, hlift⟩

theorem redo_stinv (s : AppState) (h : StInv s) : StInv (App.redo s) := by
  obtain ⟨hidx, hsync, hhist, hlift⟩ := h
  unfold App.redo
  by_cases h0 : s.currentHistoryIndex < s.history.length - 1
  · rw [if_pos h0]
    have hin : s.currentHistoryIndex + 1 < s.history.length := by omega
    rw [List.getElem?_eq_getElem hin]
    exact ⟨hin, List.getElem?_eq_getElem hin, hhist, fun g hg => by cases hg⟩
  · rw [if_neg h0]
    exact ⟨hidx, hsync, hhist, hlift⟩

theorem rotateLiftedGroup_stinv (s : AppState) (h : StInv s) :
    StInv (App.rotateLiftedGroup s) := by
  obtain ⟨hidx, hsync, hhist, hlift⟩ := h
  unfold App.rotateLiftedGroup
  cases hg : s.liftedGroup with
  | none => exact ⟨hidx, hsync, hhist, fun g' hg' => hlift g' (hg ▸ hg')⟩
  | some g =>
    obtain ⟨h1, h2, h3, h4⟩ := hlift g hg
    refine ⟨hidx, hsync, hhist, ?_⟩
    intro g' hg'
    have hg'' : g' = ⟨g.bricks.map App.rotateBrick, g.anchorId⟩ := by
      injection hg' with hinj
      exact hinj.symm
    subst hg''
    have hids : (g.bricks.map App.rotateBrick).map (fun b => b.id)
        = g.bricks.map (fun b => b.id) :=
      map_id_of_preserve App.rotateBrick (fun b => rfl) g.bricks
    refine ⟨?_, ?_, ?_, ?_⟩
    · intro m hm
      rw [List.mem_map] at hm
      obtain ⟨b, hbm, rfl⟩ := hm
      exact h1 b hbm
    · rw [hids]
      exact h2
    · intro m hm b hbm
      rw [List.mem_map] at hm
      obtain ⟨b', hb'm, rfl⟩ := hm
      exact h3 b' hb'm b hbm
    · obtain ⟨m, hm, hmid⟩ := h4
      exact ⟨App.rotateBrick m, List.mem_map.mpr ⟨m, hm, rfl⟩, hmid⟩

theorem handleLiftBrick_stinv (s : AppState) (bid : Nat) (h : StInv s) :
    StInv (App.handleLiftBrick s bid) := by
  unfold App.handleLiftBrick
  cases hfind : (s.bricks.filter
      (fun b => (getLiftableBricks bid s.bricks).contains b.id)).find?
      (fun b => b.id == bid) with
  | none => exact h
  | some anchor =>
    have hb := stinv_bricks_idsOk s h
    have hnb : IdsOk (s.bricks.filter
        (fun b => !(getLiftableBricks bid s.bricks).contains b.id)) s.nextId :=
      hb.sublist (List.filter_sublist _)
    have hanchor_mem : anchor ∈ s.bricks.filter
        (fun b => (getLiftableBricks bid s.bricks).contains b.id) :=
      List.mem_of_find?_eq_some hfind
    have hanchor_id : anchor.id = bid := by
      have := List.find?_some hfind
      simpa using this
    have hids : ((s.bricks.filter
        (fun b => (getLiftableBricks bid s.bricks).contains b.id)).map
          (App.withOffsets anchor)).map (fun b => b.id)
        = (s.bricks.filter
            (fun b => (getLiftableBricks bid s.bricks).contains b.id)).map
          (fun b => b.id) :=
      map_id_of_preserve (App.withOffsets anchor) (fun b => rfl) _
    have hlg : ∀ g, (some ⟨(s.bricks.filter
        (fun b => (getLiftableBricks bid s.bricks).contains b.id)).map
          (App.withOffsets anchor), bid⟩ : Option LiftedGroup) = some g →
        (∀ m ∈ g.bricks, m.id < s.nextId) ∧ (g.bricks.map (fun b => b.id)).Nodup
        ∧ (∀ m ∈ g.bricks, ∀ b ∈ s.bricks.filter
            (fun b => !(getLiftableBricks bid s.bricks).contains b.id), m.id ≠ b.id)
        ∧ (∃ m ∈ g.bricks, m.id = g.anchorId) := by
      intro g hg
      injection hg with hg
      subst hg
      refine ⟨?_, ?_, ?_, ?_⟩
      · intro m hm
        rw [List.mem_map] at hm
        obtain ⟨b, hbm, rfl⟩ := hm
        exact hb.1 b (List.mem_filter.mp hbm).1
      · rw [hids]
        exact List.Nodup.sublist (List.Sublist.map _ (List.filter_sublist _)) hb.2
      · intro m hm b hbm
        rw [List.mem_map] at hm
        obtain ⟨b', hb'm, rfl⟩ := hm
        intro hsame
        have h1 : (getLiftableBricks bid s.bricks).contains b'.id = true :=
          (List.mem_filter.mp hb'm).2
        have h2 : (getLiftableBricks bid s.bricks).contains b.id = false := by
          have := (List.mem_filter.mp hbm).2
          simpa using this
        rw [show (App.withOffsets anchor b').id = b'.id from rfl] at hsame
        rw [hsame] at h1
        rw [h1] at h2
        exact absurd h2 (by simp)
      · exact ⟨App.withOffsets anchor anchor,
          List.mem_map.mpr ⟨anchor, hanchor_mem, rfl⟩, hanchor_id⟩
    exact save_stinv_general s _ s.nextId _ h (le_refl _) hnb hlg

theorem handleDropGroup_stinv (s : AppState) (ax ay az : Int) (h : StInv s) :
    StInv (App.handleDropGroup s ax ay az) := by
  unfold App.handleDropGroup
  cases hg : s.liftedGroup with
  | none => exact h
  | some g =>
    by_cases hcol : ((App.proposedBricks g ax ay az).any fun pb =>
        s.bricks.any fun eb => overlapsXZb pb eb && pb.y == eb.y) = true
    · dsimp only
      rw [if_pos hcol]
      exact h
    · dsimp only
      rw [if_neg hcol]
      obtain ⟨h1, h2, h3, _⟩ := h.2.2.2 g hg
      have hb := stinv_bricks_idsOk s h
      have hpid : (App.proposedBricks g ax ay az).map (fun b => b.id)
          = g.bricks.map (fun b => b.id) := by
        unfold App.proposedBricks
        rw [List.map_map]
        rfl
      have hnb : IdsOk (s.bricks ++ App.proposedBricks g ax ay az) s.nextId := by
        constructor
        · intro b hbm
          rcases List.mem_append.mp hbm with hm | hm
          · exact hb.1 b hm
          · have hmem : b.id ∈ (App.proposedBricks g ax ay az).map (fun b => b.id) :=
              List.mem_map.mpr ⟨b, hm, rfl⟩
            rw [hpid, List.mem_map] at hmem
            obtain ⟨m, hmm, hmid⟩ := hmem
            rw [← hmid]
            exact h1 m hmm
        · rw [List.map_append, List.nodup_append, hpid]
          refine ⟨hb.2, h2, ?_⟩
          intro i hi1 hi2
          rw [List.mem_map] at hi1 hi2
          obtain ⟨b, hbm, rfl⟩ := hi1
          obtain ⟨m, hmm, hmid⟩ := hi2
          exact h3 m hmm b hbm hmid
      exact save_stinv_general s _ s.nextId none h (le_refl _) hnb
        (fun g' hg' => by cases hg')

theorem assignIds_length (l : List BrickData) : ∀ start : Nat,
    (App.assignIds start l).length = l.length := by
  induction l with
  | nil => intro start; rfl
  | cons hd tl ih =>
    intro start
    rw [App.assignIds, List.length_cons, List.length_cons, ih]

theorem assignIds_spec (l : List BrickData) : ∀ start : Nat,
    (∀ b ∈ App.assignIds start l, start ≤ b.id ∧ b.id < start + l.length)
    ∧ ((App.assignIds start l).map (fun b => b.id)).Nodup := by
  induction l with
  | nil =>
    intro start
    exact ⟨by simp [App.assignIds], by simp [App.assignIds]⟩
  | cons hd tl ih =>
    intro start
    constructor
    · intro b hbm
      rw [App.assignIds] at hbm
      rcases List.mem_cons.mp hbm with rfl | hm
      · simp only [List.length_cons]
        omega
      · have := (ih (start + 1)).1 b hm
        simp only [List.length_cons]
        omega
    · rw [App.assignIds, List.map_cons, List.nodup_cons]
      constructor
      · intro hmem
        rw [List.mem_map] at hmem
        obtain ⟨b, hbm, hbid⟩ := hmem
        have := (ih (start + 1)).1 b hbm
        simp only at hbid
        omega
      · exact (ih (start + 1)).2

theorem handleGenerate_stinv (s : AppState) (raw : List RawVoxel) (h : StInv s) :
    StInv (App.handleGenerate s raw) := by
  have hspec := assignIds_spec
    (List.insertionSort (fun a b => a.y ≤ b.y) (optimizeBricks raw)) s.nextId
  have hlen := assignIds_length
    (List.insertionSort (fun a b => a.y ≤ b.y) (optimizeBricks raw)) s.nextId
  have hnb : IdsOk (App.assignIds s.nextId
      (List.insertionSort (fun a b => a.y ≤ b.y) (optimizeBricks raw)))
      (s.nextId + (App.assignIds s.nextId
        (List.insertionSort (fun a b => a.y ≤ b.y) (optimizeBricks raw))).length) := by
    constructor
    · intro b hbm
      have := hspec.1 b hbm
      rw [hlen]
      omega
    · exact hspec.2
  exact save_stinv_general s _ _ none h (Nat.le_add_right _ _) hnb
    (fun g' hg' => by cases hg')

theorem reachable_stinv (s : AppState) (h : Reachable s) : StInv s := by
  induction h with
  | init =>
    refine ⟨by decide, by decide, ?_, fun g hg => by cases hg⟩
    intro snap hsnap
    have : snap = [] := by simpa [initialState] using hsnap
    subst this
    exact ⟨by simp, by simp⟩
  | add x y z color ty rot h hmem ih => exact addBrick_stinv _ _ _ _ _ _ _ ih
  | remove id _ ih => exact removeBrick_stinv _ _ ih
  | clear _ ih => exact clearBricks_stinv _ ih
  | lift id _ ih => exact handleLiftBrick_stinv _ _ ih
  | drop x y z _ ih => exact handleDropGroup_stinv _ _ _ _ ih
  | undo _ ih => exact undo_stinv _ ih
  | redo _ ih => exact redo_stinv _ ih
  | rotate _ ih => exact rotateLiftedGroup_stinv _ ih
  | generate raw _ ih => exact handleGenerate_stinv _ _ ih

/-- C9 (amended): in every reachable state holding a Lifted Group, no
member brick appears in the committed board list and exactly one member
carries the group's `anchorId`; and at the moment `handleLiftBrick`
creates the group, the member carrying `anchorId` has offsets
`(0, 0, 0)`.  (The spec's stronger claim — that the anchor member keeps
offset `(0,0,0)` in every reachable held-group state, rotations
included — fails: `rotateLiftedGroup` maps the anchor's offsets
`(0,0,0)` to `(0,0,-sizeX)`.) -/
theorem lifted_group_invariants (s : AppState) (h : Reachable s) :
    (∀ g, s.liftedGroup = some g →
        (∀ m ∈ g.bricks, m ∉ s.bricks)
        ∧ (∃! m, m ∈ g.bricks ∧ m.id = g.anchorId))
    ∧ (∀ a ∈ s.bricks, ∀ g,
        (App.handleLiftBrick s a.id).liftedGroup = some g →
        ∀ m ∈ g.bricks, m.id = g.anchorId →
          m.offsetX = some 0 ∧ m.offsetY = some 0 ∧ m.offsetZ = some 0) := by
  have hinv := reachable_stinv s h
  have hnd : (s.bricks.map (fun b => b.id)).Nodup := (stinv_bricks_idsOk s hinv).2
  constructor
  · intro g hg
    obtain ⟨h1, h2, h3, h4⟩ := hinv.2.2.2 g hg
    constructor
    · intro m hm hmem
      exact h3 m hm m hmem rfl
    · obtain ⟨m0, hm0, hid0⟩ := h4
      refine ⟨m0, ⟨hm0, hid0⟩, ?_⟩
      intro m' hm'
      exact List.inj_on_of_nodup_map h2 hm'.1 hm0 (by
        show m'.id = m0.id
        rw [hm'.2, hid0])
  · intro a ha g hg
    have hamem : a.id ∈ getLiftableBricks a.id s.bricks :=
      start_mem_getLiftableBricks s.bricks a hnd ha
    have hag : a ∈ s.bricks.filter
        (fun b => (getLiftableBricks a.id s.bricks).contains b.id) :=
      List.mem_filter.mpr ⟨ha, by simpa using hamem⟩
    have hgnd : ((s.bricks.filter
        (fun b => (getLiftableBricks a.id s.bricks).contains b.id)).map
          (fun b => b.id)).Nodup :=
      List.Nodup.sublist (List.Sublist.map _ (List.filter_sublist s.bricks)) hnd
    have hfind : (s.bricks.filter
        (fun b => (getLiftableBricks a.id s.bricks).contains b.id)).find?
          (fun b => b.id == a.id) = some a :=
      find_id_of_nodup _ a hgnd hag
    unfold App.handleLiftBrick at hg
    rw [hfind] at hg
    dsimp only at hg
    injection hg with hgeq
    subst hgeq
    intro m hm hmid
    obtain ⟨b, hbm, rfl⟩ := List.mem_map.mp hm
    have hba : b = a :=
      List.inj_on_of_nodup_map hnd (List.mem_filter.mp hbm).1 ha hmid
    subst hba
    refine ⟨?_, ?_, ?_⟩ <;> simp [App.withOffsets]

/-- C9 (witness): the invariants instantiated at the concrete reachable
state obtained by placing one red 1×1 brick at the origin and lifting
it. -/
theorem lifted_group_invariants_witness :
    (∀ g, (App.handleLiftBrick (App.addBrick initialState 0 0 0 "#EF4444"
        ⟨"1x1", 1, 1, none⟩ false) 0).liftedGroup = some g →
        (∀ m ∈ g.bricks, m ∉ (App.handleLiftBrick (App.addBrick initialState 0 0 0
          "#EF4444" ⟨"1x1", 1, 1, none⟩ false) 0).bricks)
        ∧ (∃! m, m ∈ g.bricks ∧ m.id = g.anchorId))
    ∧ (∀ a ∈ (App.handleLiftBrick (App.addBrick initialState 0 0 0 "#EF4444"
          ⟨"1x1", 1, 1, none⟩ false) 0).bricks, ∀ g,
        (App.handleLiftBrick (App.handleLiftBrick (App.addBrick initialState 0 0 0
          "#EF4444" ⟨"1x1", 1, 1, none⟩ false) 0) a.id).liftedGroup = some g →
        ∀ m ∈ g.bricks, m.id = g.anchorId →
          m.offsetX = some 0 ∧ m.offsetY = some 0 ∧ m.offsetZ = some 0) :=
  lifted_group_invariants _
    (Reachable.lift 0 (Reachable.add 0 0 0 "#EF4444" ⟨"1x1", 1, 1, none⟩ false
      Reachable.init (by decide)))

/-- C9 (counterexample): rotating a held group breaks the zero-offset
anchor property.  After lifting a single 1×1 brick and rotating the
held group once, the member carrying the anchor id has
`offsetZ = some (-1)`, not `some 0`. -/
theorem anchor_offset_rotation_counterexample :
    ∃ s : AppState, Reachable s ∧ ∃ g, s.liftedGroup = some g ∧
      ∃ m ∈ g.bricks, m.id = g.anchorId ∧ m.offsetZ ≠ some 0 := by
  refine ⟨App.rotateLiftedGroup (App.handleLiftBrick (App.addBrick initialState
      0 0 0 "#EF4444" ⟨"1x1", 1, 1, none⟩ false) 0),
    Reachable.rotate (Reachable.lift 0 (Reachable.add 0 0 0 "#EF4444"
      ⟨"1x1", 1, 1, none⟩ false Reachable.init (by decide))), ?_⟩
  rw [show App.addBrick initialState 0 0 0 "#EF4444" ⟨"1x1", 1, 1, none⟩ false
      = ⟨[⟨0, 0, 0, 0, "#EF4444", some 1, some 1, some 0, none, none, none, none⟩],
         [[], [⟨0, 0, 0, 0, "#EF4444", some 1, some 1, some 0, none, none, none, none⟩]],
         1, none, 1⟩ from by decide]
  have hids : getLiftableBricks 0
      [⟨0, 0, 0, 0, "#EF4444", some 1, some 1, some 0, none, none, none, none⟩]
      = [0] := by
    unfold getLiftableBricks
    rw [show List.find? (fun b => b.id == 0)
        [(⟨0, 0, 0, 0, "#EF4444", some 1, some 1, some 0, none, none, none,
          none⟩ : BrickData)]
      = some ⟨0, 0, 0, 0, "#EF4444", some 1, some 1, some 0, none, none, none, none⟩
      from by decide]
    dsimp only
    rw [bfsLift_cons]
    rw [show supportedBy
        [⟨0, 0, 0, 0, "#EF4444", some 1, some 1, some 0, none, none, none, none⟩]
        ⟨0, 0, 0, 0, "#EF4444", some 1, some 1, some 0, none, none, none, none⟩ [0]
      = [] from by decide]
    simp [bfsLift_nil]
  have hlift : App.handleLiftBrick
      ⟨[⟨0, 0, 0, 0, "#EF4444", some 1, some 1, some 0, none, none, none, none⟩],
       [[], [⟨0, 0, 0, 0, "#EF4444", some 1, some 1, some 0, none, none, none, none⟩]],
       1, none, 1⟩ 0
      = ⟨[],
         [[], [⟨0, 0, 0, 0, "#EF4444", some 1, some 1, some 0, none, none, none, none⟩],
          []],
         2,
         some ⟨[⟨0, 0, 0, 0, "#EF4444", some 1, some 1, some 0, none,
                  some 0, some 0, some 0⟩], 0⟩, 1⟩ := by
    unfold App.handleLiftBrick
    dsimp only
    rw [hids]
    decide
  rw [hlift]
  exact ⟨⟨[⟨0, 0, 0, 0, "#EF4444", some 1, some 1, some 90, none,
            some 0, some 0, some (-1)⟩], 0⟩, by decide,
    ⟨0, 0, 0, 0, "#EF4444", some 1, some 1, some 90, none,
      some 0, some 0, some (-1)⟩, by decide, by decide, by decide⟩


/-- C8 (counterexample): the bounds clamp covers only the ground-plane
pointer path.  A 1×1 brick at the board edge `x = 10` is reachable; in
BUILD mode, clicking its outward `+x` side face (pointer snapping to
`x = 10`, face normal `(1, 0, 0)`) goes through `onBrickClick`, which
calls `addBrick` with no bounds check: a brick is added at `x = 11`,
outside `[-MAX_BOARD_SIZE/2, MAX_BOARD_SIZE/2]`, and a history entry is
committed — the request is not silently ignored. -/
theorem out_of_bounds_face_click_counterexample :
    MAX_BOARD_SIZE / 2 < 11
    ∧ Reachable (App.addBrick initialState 10 0 0 "#EF4444" ⟨"1x1", 1, 1, none⟩ false)
    ∧ (∃ b ∈ (onBrickClick ToolMode.BUILD
          (App.addBrick initialState 10 0 0 "#EF4444" ⟨"1x1", 1, 1, none⟩ false)
          ⟨0, 10, 0, 0, "#EF4444", some 1, some 1, some 0, none, none, none, none⟩
          ((10 : Int) : ℚ) ((0 : Int) : ℚ)
          (some (((1 : Int) : ℚ), ((0 : Int) : ℚ), ((0 : Int) : ℚ)))
          "#3B82F6" ⟨"1x1", 1, 1, none⟩ false).bricks,
        b.x = 11 ∧ MAX_BOARD_SIZE / 2 < b.x)
    ∧ (onBrickClick ToolMode.BUILD
          (App.addBrick initialState 10 0 0 "#EF4444" ⟨"1x1", 1, 1, none⟩ false)
          ⟨0, 10, 0, 0, "#EF4444", some 1, some 1, some 0, none, none, none, none⟩
          ((10 : Int) : ℚ) ((0 : Int) : ℚ)
          (some (((1 : Int) : ℚ), ((0 : Int) : ℚ), ((0 : Int) : ℚ)))
          "#3B82F6" ⟨"1x1", 1, 1, none⟩ false).history.length
        = (App.addBrick initialState 10 0 0 "#EF4444"
            ⟨"1x1", 1, 1, none⟩ false).history.length + 1 := by
  have hclick : onBrickClick ToolMode.BUILD
      (App.addBrick initialState 10 0 0 "#EF4444" ⟨"1x1", 1, 1, none⟩ false)
      ⟨0, 10, 0, 0, "#EF4444", some 1, some 1, some 0, none, none, none, none⟩
      ((10 : Int) : ℚ) ((0 : Int) : ℚ)
      (some (((1 : Int) : ℚ), ((0 : Int) : ℚ), ((0 : Int) : ℚ)))
      "#3B82F6" ⟨"1x1", 1, 1, none⟩ false
      = App.addBrick
          (App.addBrick initialState 10 0 0 "#EF4444" ⟨"1x1", 1, 1, none⟩ false)
          11 0 0 "#3B82F6" ⟨"1x1", 1, 1, none⟩ false := by
    unfold onBrickClick
    dsimp only
    rw [if_neg (show ¬(((0 : Int) : ℚ) > 1 / 2) from by norm_num)]
    rw [show snapToGrid ((10 : Int) : ℚ) = 10 from snapToGrid_intCast 10,
        show snapToGrid ((1 : Int) : ℚ) = 1 from snapToGrid_intCast 1,
        show snapToGrid ((0 : Int) : ℚ) = 0 from snapToGrid_intCast 0]
    decide
  refine ⟨by decide,
    Reachable.add 10 0 0 "#EF4444" ⟨"1x1", 1, 1, none⟩ false Reachable.init (by decide),
    ?_, ?_⟩
  · rw [hclick]
    decide
  · rw [hclick]
    decide
